import Mathlib

/-!
Package `sergeant`: command registry, dispatch, help rendering and exit
coordination.

A shallow embedding of `sergeant/sergeant.go`.

Go strings are modelled as Lean strings (sequences of Unicode code points, i.e.
valid UTF-8 text); byte offsets of the source become character offsets, which
select the same substrings on such text.  `capitalize` is the one function whose
behaviour is about the byte encoding itself, and it is embedded over byte lists,
with Go's UTF-8 decoding and encoding.

The process is modelled by an explicit state (the package variables
`exitStatus` and `atexitFuncs`) together with a trace of observable events, and
`os.Exit` by an outcome that stops every caller.
-/

namespace Sergeant

/-! ## Strings -/

/-- Go `strings.Index(s, sep)` for a one-character separator, on the characters
of `s`: the offset of the first occurrence, `-1` when there is none. -/
def stringsIndex : List Char → Char → Int
  | [], _ => -1
  | c :: cs, sep =>
    if c = sep then 0
    else
      let i := stringsIndex cs sep
      if i ≥ 0 then i + 1 else -1

/-- Go slice expression `s[:i]` for `0 ≤ i ≤ len(s)`. -/
def slicePrefix (s : List Char) (i : Int) : List Char := s.take i.toNat

/-- Go `unicode.IsSpace`: the code points with the White_Space property. -/
def isSpace (c : Char) : Bool :=
  let n := c.toNat
  (9 ≤ n && n ≤ 13) || n = 0x20 || n = 0x85 || n = 0xA0 || n = 0x1680 ||
  (0x2000 ≤ n && n ≤ 0x200A) || n = 0x2028 || n = 0x2029 || n = 0x202F ||
  n = 0x205F || n = 0x3000

/-- Go `strings.TrimSpace`: drops leading and trailing white space. -/
def TrimSpace (s : String) : String :=
  String.mk (((s.data.dropWhile isSpace).reverse.dropWhile isSpace).reverse)

/-! ## Command descriptors -/

/-- The outcome of `flag.FlagSet.Parse`: the positional arguments left over, or a
failure, carrying the text (if any) that the flag package wrote to the error
stream before it called the set's `Usage` function. -/
inductive ParseResult where
  | ok (rest : List String)
  | fail (msg : Option String)

/-- The parts of Go's `flag.FlagSet` used by the dispatcher: `Parse` followed by
`Args`.  The flag definitions of a descriptor belong to the host program, so the
parser is a field of the descriptor. -/
structure FlagSet where
  Parse : List String → ParseResult

/-- What host code, the body of a command or of a shutdown callback, may do to
the streams and the package state: write, call `setExitStatus(n)`, or call
`atexit` with a callback, given by a label identifying the registration and the
effects of its body. -/
inductive Effect where
  | stdout (s : String)
  | stderr (s : String)
  | setExitStatus (n : Int)
  | atexit (label : Nat) (body : List Effect)

/-- A shutdown callback `func()`: a label identifying the registration and the
effects of its body. -/
structure Callback where
  label : Nat
  body : List Effect

/-- The Go struct `Command`.  `Run` is `none` for the nil function; a body maps
the arguments it receives to the effects it performs. -/
structure Command where
  Run : Option (List String → List Effect)
  UsageLine : String
  Short : String
  Long : String
  Flag : FlagSet
  CustomFlags : Bool

/-- Method `Command.Name`: the first word of the usage line. -/
def Command.Name (c : Command) : String :=
  let name := c.UsageLine
  let i := stringsIndex name.data ' '
  if i ≥ 0 then String.mk (slicePrefix name.data i) else name

/-- Method `Command.Runnable`. -/
def Command.Runnable (c : Command) : Bool := c.Run.isSome

/-! ## Formatted output -/

/-- The functions of Go's standard library that the package reaches through
`fmt.Fprintf` and that are taken as given: `strconv.Quote` (verb `%q`), the
rendering of `%#q` (back-quoted when `strconv.CanBackquote` holds, otherwise as
`%q`), and `fmtOther`, the text `fmt` writes for the rest of a format from a
directive that is not modelled in `doPrintf`: given the flags already read, the
format from the current position, the operands and how many are consumed. -/
structure GoLib where
  Quote : String → String
  QuoteSharp : String → String
  fmtOther : List Char → List Char → List String → Nat → List Char

/-- The flag characters of a `fmt` directive. -/
def isFlagChar (c : Char) : Bool :=
  c = '#' || c = '0' || c = '+' || c = '-' || c = ' '

/-- The text `fmt` appends for operands that no directive consumed. -/
def extraArgs : List String → List Char
  | [] => []
  | rest =>
    "%!(EXTRA ".data ++ (String.intercalate ", " (rest.map fun s => "string=" ++ s)).data ++ [')']

/-- Go `fmt` format processing (`doPrintf`) for string operands `a`.  The first
argument is `none` while copying literal text and `some flags` inside a
directive, after `%` and the flags read so far; the last is the number of
operands consumed.  Modelled directly: literal text, `%%`, a verb with no
operand left, `%s`, `%v`, `%q`, `%#q`, a verb that is no letter, a format ending
inside a directive, and unused operands.  Width, precision, operand indexes and
the remaining verbs are left to `GoLib.fmtOther`. -/
def doPrintf (lib : GoLib) (a : List String) :
    Option (List Char) → List Char → Nat → List Char
  | none, [], argNum => extraArgs (a.drop argNum)
  | none, c :: rest, argNum =>
    if c = '%' then doPrintf lib a (some []) rest argNum
    else c :: doPrintf lib a none rest argNum
  | some _, [], argNum => "%!(NOVERB)".data ++ extraArgs (a.drop argNum)
  | some flags, c :: rest, argNum =>
    if isFlagChar c then doPrintf lib a (some (flags ++ [c])) rest argNum
    else if c = '%' then '%' :: doPrintf lib a none rest argNum
    else if c.isDigit || c = '.' || c = '[' || c = '*' then
      lib.fmtOther flags (c :: rest) a argNum
    else
      match a.get? argNum with
      | none => "%!".data ++ [c] ++ "(MISSING)".data ++ doPrintf lib a none rest argNum
      | some s =>
        if flags = [] ∧ (c = 's' ∨ c = 'v') then
          s.data ++ doPrintf lib a none rest (argNum + 1)
        else if flags = [] ∧ c = 'q' then
          (lib.Quote s).data ++ doPrintf lib a none rest (argNum + 1)
        else if flags = ['#'] ∧ c = 'q' then
          (lib.QuoteSharp s).data ++ doPrintf lib a none rest (argNum + 1)
        else if flags = [] ∧ ¬ c.isAlpha then
          "%!".data ++ [c] ++ "(string=".data ++ s.data ++ [')'] ++
            doPrintf lib a none rest (argNum + 1)
        else lib.fmtOther flags (c :: rest) a argNum

/-- Go `fmt.Sprintf(format, a...)` for string operands: the text that
`fmt.Fprintf` writes. -/
def Sprintf (lib : GoLib) (format : String) (a : List String) : String :=
  String.mk (doPrintf lib a none format.data 0)

/-- Go `fmt.Sprintf("%-11s", s)`, the `printf "%-11s"` of the usage template:
`s` followed by spaces up to a width of 11 characters; a longer `s` is written
whole. -/
def printfMinus11s (s : String) : String :=
  s ++ String.mk (List.replicate (11 - s.length) ' ')

/-! ## Process state -/

/-- An observable event of a run. -/
inductive Event where
  | stdout (s : String)
  | stderr (s : String)
  | parse (cmd : Nat) (args : List String)
  | run (cmd : Nat) (args : List String)
  | callback (label : Nat)

/-- The package variables `exitStatus` and `atexitFuncs`, and the events so far
(oldest first).  In `Event.parse` and `Event.run` a descriptor is named by its
position in `Commands`. -/
structure State where
  exitStatus : Int
  atexitFuncs : List Callback
  trace : List Event

/-- The state at program start: `exitStatus = 0`, no callback, nothing done. -/
def State.init : State := ⟨0, [], []⟩

/-- How a call ends: it returns to its caller, or `os.Exit(code)` ended the
process. -/
inductive Outcome where
  | returned
  | exited (code : Int)
  deriving DecidableEq

/-- Appends an event to the trace. -/
def emit (e : Event) (st : State) : State :=
  { st with trace := st.trace ++ [e] }

/-- Function `setExitStatus`. -/
def setExitStatus (n : Int) (st : State) : State :=
  if st.exitStatus < n then { st with exitStatus := n } else st

/-- Function `atexit`. -/
def atexit (f : Callback) (st : State) : State :=
  { st with atexitFuncs := st.atexitFuncs ++ [f] }

/-- Performs one effect of host code. -/
def runEffect (e : Effect) (st : State) : State :=
  match e with
  | .stdout s => emit (.stdout s) st
  | .stderr s => emit (.stderr s) st
  | .setExitStatus n => setExitStatus n st
  | .atexit label body => atexit ⟨label, body⟩ st

/-- The call `f()` of a shutdown callback. -/
def runCallback (f : Callback) (st : State) : State :=
  f.body.foldl (fun s e => runEffect e s) (emit (.callback f.label) st)

/-- Function `exit`: calls the callbacks that `atexitFuncs` holds when the loop
starts, in order, then `os.Exit(exitStatus)`. -/
def exit (st : State) : State × Outcome :=
  let st1 := st.atexitFuncs.foldl (fun s f => runCallback f s) st
  (st1, .exited st1.exitStatus)

/-! ## Rendering -/

/-- The package variables set by the host program before `Init`: the registry
`Commands`, `ApplicationName` and `ApplicationDescription`. -/
structure App where
  Commands : List Command
  ApplicationName : String
  ApplicationDescription : String

/-- The two streams `os.Stdout` and `os.Stderr`. -/
inductive Stream where
  | Stdout
  | Stderr

/-- A write of `s` to the stream `w`. -/
def write (w : Stream) (s : String) (st : State) : State :=
  match w with
  | .Stdout => emit (.stdout s) st
  | .Stderr => emit (.stderr s) st

/-- The text of one round of `{{range .Data}}` in `usageTemplate`:
`{{if .Runnable}}`, a line break, two spaces, `{{.Name | printf "%-11s"}}`, a
space, `{{.Short}}`, `{{end}}`. -/
def usageCommandLine (c : Command) : String :=
  if c.Runnable then "\n  " ++ printfMinus11s c.Name ++ " " ++ c.Short else ""

/-- The texts written one after the other. -/
def concatText : List String → String
  | [] => ""
  | s :: ss => s ++ concatText ss

/-- The text `tmpl` produces from `usageTemplate` with `Commands` as data. -/
def usageText (app : App) : String :=
  app.ApplicationDescription ++ "\n\nUsage:\n\n  " ++ app.ApplicationName ++
    " command [arguments]\n\nThe commands are:\n" ++
    concatText (app.Commands.map usageCommandLine) ++
    "\n\nUse \"" ++ app.ApplicationName ++
    " help [command]\" for more information about a command.\n\n"

/-- The text `tmpl` produces from `helpTemplate` with the descriptor `cmd` as
data; `trim` is `strings.TrimSpace`. -/
def helpText (app : App) (cmd : Command) : String :=
  (if cmd.Runnable then
      "usage: " ++ app.ApplicationName ++ " " ++ cmd.UsageLine ++ "\n\n"
    else "") ++
    TrimSpace cmd.Long ++ "\n\n"

/-- Function `printUsage`. -/
def printUsage (app : App) (w : Stream) (st : State) : State :=
  write w (usageText app) st

/-- Function `usage`: the usage text on the error stream, then `os.Exit(2)`. -/
def usage (app : App) (st : State) : State × Outcome :=
  (printUsage app .Stderr st, .exited 2)

/-- Method `Command.Usage`: the usage line and the trimmed long text on the
error stream, then `os.Exit(2)`. -/
def Command.Usage (lib : GoLib) (c : Command) (st : State) : State × Outcome :=
  let st1 := write .Stderr (Sprintf lib "usage: %s\n\n" [c.UsageLine]) st
  let st2 := write .Stderr (Sprintf lib "%s\n" [TrimSpace c.Long]) st1
  (st2, .exited 2)

/-- The loop of `help` over `Commands`, and the statements after it. -/
def helpLoop (app : App) (lib : GoLib) (arg : String) :
    List Command → State → State × Outcome
  | [], st =>
    let errMsg := "Unknown help topic %#q. Run '" ++ app.ApplicationName ++ " help'.\n"
    (write .Stderr (Sprintf lib errMsg [arg]) st, .exited 2)
  | cmd :: rest, st =>
    if cmd.Name = arg then (write .Stdout (helpText app cmd) st, .returned)
    else helpLoop app lib arg rest st

/-- Function `help`, the `help` command. -/
def help (app : App) (lib : GoLib) (args : List String) (st : State) :
    State × Outcome :=
  if args.length = 0 then (printUsage app .Stdout st, .returned)
  else if args.length ≠ 1 then
    let errMsg := "usage: " ++ app.ApplicationName ++
      " help command\n\nToo many arguments given.\n"
    (write .Stderr (Sprintf lib errMsg []) st, .exited 2)
  else helpLoop app lib (args.getD 0 "") app.Commands st

/-! ## Dispatch -/

/-- The call `cmd.Run(cmd, args)` of the descriptor at position `i`, followed by
`exit()`. -/
def runThenExit (i : Nat) (body : List String → List Effect) (args : List String)
    (st : State) : State × Outcome :=
  exit ((body args).foldl (fun s e => runEffect e s) (emit (.run i args) st))

/-- The body of the `if` in the loop of `Init`, for the descriptor `cmd` at
position `i` whose `Run` is `body`.  `cmd.Flag.Usage` is set to call `cmd.Usage`,
so a failing `cmd.Flag.Parse` ends in `Command.Usage`. -/
def runMatched (lib : GoLib) (args : List String) (i : Nat) (cmd : Command)
    (body : List String → List Effect) (st : State) : State × Outcome :=
  if cmd.CustomFlags then runThenExit i body (args.drop 1) st
  else
    let st1 := emit (.parse i (args.drop 1)) st
    match cmd.Flag.Parse (args.drop 1) with
    | .ok left => runThenExit i body left st1
    | .fail none => cmd.Usage lib st1
    | .fail (some msg) => cmd.Usage lib (write .Stderr msg st1)

/-- The loop of `Init` over `Commands` from position `i` on, with its condition
`cmd.Name() == args[0] && cmd.Run != nil`, and the statements after the loop. -/
def dispatch (app : App) (lib : GoLib) (args : List String) :
    List Command → Nat → State → State × Outcome
  | [], _, st =>
    let errMsg := app.ApplicationName ++ ": unknown subcommand %q\nRun '" ++
      app.ApplicationName ++ " help` for usage.\n"
    (write .Stderr (Sprintf lib errMsg [args.getD 0 ""]) st, .returned)
  | cmd :: rest, i, st =>
    match cmd.Run with
    | some body =>
      if cmd.Name = args.getD 0 "" then runMatched lib args i cmd body st
      else dispatch app lib args rest (i + 1) st
    | none => dispatch app lib args rest (i + 1) st

/-- Function `Init`, from the positional arguments `flag.Args()` that the global
`flag.Parse()` leaves. -/
def Init (app : App) (lib : GoLib) (args : List String) (st : State) :
    State × Outcome :=
  if args.length < 1 then usage app st
  else if args.getD 0 "" = "help" then help app lib (args.drop 1) st
  else dispatch app lib args app.Commands 0 st

/-! ## A descriptor without flags -/

/-- Go `flag.FlagSet.Parse` on a set in which no flag is defined, such as the
zero value of `Command.Flag`: a first argument that is not shaped like a flag
ends parsing, `--` is dropped, and every flag is an error (`-h` and `-help`
print nothing of their own before the usage function runs). -/
def zeroFlagSetParse (arguments : List String) : ParseResult :=
  match arguments with
  | [] => .ok []
  | s :: rest =>
    match s.data with
    | '-' :: c :: cs =>
      if c = '-' ∧ cs = [] then .ok rest
      else
        let name := if c = '-' then cs else c :: cs
        if name = [] ∨ name.head? = some '-' ∨ name.head? = some '=' then
          .fail (some ("bad flag syntax: " ++ s ++ "\n"))
        else
          let name :=
            match name with
            | [] => []
            | n0 :: ns => n0 :: ns.takeWhile (fun x => x ≠ '=')
          if name = "help".data ∨ name = "h".data then .fail none
          else .fail (some ("flag provided but not defined: -" ++ String.mk name ++ "\n"))
    | _ => .ok (s :: rest)

/-- The zero value of `flag.FlagSet`. -/
def zeroFlagSet : FlagSet := ⟨zeroFlagSetParse⟩

/-! ## Observations on traces -/

/-- The command bodies invoked, in order: position in the registry and the
arguments passed. -/
def runCalls (es : List Event) : List (Nat × List String) :=
  es.filterMap fun e =>
    match e with
    | .run i a => some (i, a)
    | _ => none

/-- The calls of a descriptor's flag parser, in order. -/
def parseCalls (es : List Event) : List (Nat × List String) :=
  es.filterMap fun e =>
    match e with
    | .parse i a => some (i, a)
    | _ => none

/-- The labels of the shutdown callbacks invoked, in order. -/
def callbackCalls (es : List Event) : List Nat :=
  es.filterMap fun e =>
    match e with
    | .callback l => some l
    | _ => none

/-- The writes to the error stream, in order. -/
def stderrWrites (es : List Event) : List String :=
  es.filterMap fun e =>
    match e with
    | .stderr s => some s
    | _ => none

/-- The writes to the output stream, in order. -/
def stdoutWrites (es : List Event) : List String :=
  es.filterMap fun e =>
    match e with
    | .stdout s => some s
    | _ => none

/-- The state after `setExitStatus` is called with each value of `ns` in turn. -/
def reports (ns : List Int) (st : State) : State :=
  ns.foldl (fun s n => setExitStatus n s) st

/-- The state after `atexit` is called with each callback of `fs` in turn. -/
def registerAll (fs : List Callback) (st : State) : State :=
  fs.foldl (fun s f => atexit f s) st

/-- The values that a callback body passes to `setExitStatus`, in order. -/
def reported (body : List Effect) : List Int :=
  body.filterMap fun e =>
    match e with
    | .setExitStatus n => some n
    | _ => none

/-- The characters other than `sep`. -/
def isNot (sep : Char) (x : Char) : Bool := !(x == sep)

/-- The values passed to `setExitStatus` by the bodies of the callbacks `fs`,
called in order. -/
def reportedBy : List Callback → List Int
  | [] => []
  | f :: fs => reported f.body ++ reportedBy fs

/-- The events of the writes among the effects of a body, in order. -/
def writeEvents : List Effect → List Event
  | [] => []
  | .stdout s :: es => .stdout s :: writeEvents es
  | .stderr s :: es => .stderr s :: writeEvents es
  | _ :: es => writeEvents es

/-- The callbacks that a body registers through `atexit`, in order. -/
def registered : List Effect → List Callback
  | [] => []
  | .atexit label body :: es => ⟨label, body⟩ :: registered es
  | _ :: es => registered es

/-- The events of calling the callbacks `fs` one after the other: for each, the
call and then the writes of its body. -/
def callbackEvents : List Callback → List Event
  | [] => []
  | f :: fs => (.callback f.label :: writeEvents f.body) ++ callbackEvents fs

/-- The callbacks that the bodies of the callbacks `fs` register, in order. -/
def registeredBy : List Callback → List Callback
  | [] => []
  | f :: fs => registered f.body ++ registeredBy fs

/-! ## UTF-8 and `capitalize` -/

/-- Go `utf8.RuneError`, the replacement character U+FFFD. -/
def RuneError : Nat := 0xFFFD

/-- Go `utf8.first`: information about the first byte of an encoding.  `0xF0`
marks an ASCII byte and `0xF1` an invalid one; otherwise the low three bits are
the length of the encoding and the high four bits the index into
`acceptRanges`. -/
def first (b : Nat) : Nat :=
  if b < 0x80 then 0xF0
  else if b < 0xC2 then 0xF1
  else if b < 0xE0 then 0x02
  else if b = 0xE0 then 0x13
  else if b < 0xED then 0x03
  else if b = 0xED then 0x23
  else if b < 0xF0 then 0x03
  else if b = 0xF0 then 0x34
  else if b < 0xF4 then 0x04
  else if b = 0xF4 then 0x44
  else 0xF1

/-- Go `utf8.acceptRanges`: the range of a valid second byte. -/
def acceptRanges (i : Nat) : Nat × Nat :=
  match i with
  | 0 => (0x80, 0xBF)
  | 1 => (0xA0, 0xBF)
  | 2 => (0x80, 0x9F)
  | 3 => (0x90, 0xBF)
  | 4 => (0x80, 0x8F)
  | _ => (0, 0)

/-- Go `utf8.DecodeRuneInString` on the bytes of a string: the first rune and
the number of bytes of its encoding; `(RuneError, 0)` for the empty string and
`(RuneError, 1)` for an invalid encoding.  The masks and shifts of the source
are written with `%` and `*`. -/
def DecodeRuneInString (s : List Nat) : Nat × Nat :=
  let n := s.length
  if n < 1 then (RuneError, 0)
  else
    let s0 := s.getD 0 0
    let x := first s0
    if x ≥ 0xF0 then
      if x = 0xF0 then (s0, 1) else (RuneError, 1)
    else
      let sz := x % 8
      let accept := acceptRanges (x / 16)
      if n < sz then (RuneError, 1)
      else
        let s1 := s.getD 1 0
        if s1 < accept.1 ∨ accept.2 < s1 then (RuneError, 1)
        else if sz ≤ 2 then ((s0 % 32) * 64 + s1 % 64, 2)
        else
          let s2 := s.getD 2 0
          if s2 < 0x80 ∨ 0xBF < s2 then (RuneError, 1)
          else if sz ≤ 3 then ((s0 % 16) * 4096 + (s1 % 64) * 64 + s2 % 64, 3)
          else
            let s3 := s.getD 3 0
            if s3 < 0x80 ∨ 0xBF < s3 then (RuneError, 1)
            else ((s0 % 8) * 262144 + (s1 % 64) * 4096 + (s2 % 64) * 64 + s3 % 64, 4)

/-- The Go conversion `string(r)` of a rune to its UTF-8 encoding
(`utf8.AppendRune`); a surrogate or a value above U+10FFFF is encoded as
`RuneError`. -/
def encodeRune (r : Nat) : List Nat :=
  if r < 0x80 then [r]
  else if r ≤ 0x7FF then [0xC0 + r / 64, 0x80 + r % 64]
  else if r > 0x10FFFF ∨ (0xD800 ≤ r ∧ r ≤ 0xDFFF) then [0xEF, 0xBF, 0xBD]
  else if r ≤ 0xFFFF then [0xE0 + r / 4096, 0x80 + r / 64 % 64, 0x80 + r % 64]
  else [0xF0 + r / 262144, 0x80 + r / 4096 % 64, 0x80 + r / 64 % 64, 0x80 + r % 64]

/-- Go `unicode.ToTitle`: ASCII letters are mapped in place, every other rune
through the title-case table of the Unicode database, `caseTable`. -/
def ToTitle (caseTable : Nat → Nat) (r : Nat) : Nat :=
  if r ≤ 0x7F then
    if 0x61 ≤ r ∧ r ≤ 0x7A then r - (0x61 - 0x41) else r
  else caseTable r

/-- Function `capitalize`, on the bytes of the string. -/
def capitalize (caseTable : Nat → Nat) (s : List Nat) : List Nat :=
  if s = [] then s
  else
    let rn := DecodeRuneInString s
    encodeRune (ToTitle caseTable rn.1) ++ s.drop rn.2

/-- The bytes of a string: the encodings of its characters. -/
def bytesOf : List Char → List Nat
  | [] => []
  | c :: cs => encodeRune c.toNat ++ bytesOf cs

/-- A Unicode scalar value: at most U+10FFFF and no surrogate. -/
def validRune (r : Nat) : Prop := r ≤ 0x10FFFF ∧ ¬ (0xD800 ≤ r ∧ r ≤ 0xDFFF)

/-- The title-case mapping of the Unicode database on the Latin-1 letters, for
evaluating examples: the small letters U+00E0 to U+00FE other than the division
sign map to the capital 32 places below, the micro sign to capital mu and the
small y with diaeresis to U+0178; the other runes of the block have no mapping. -/
def latin1Title (r : Nat) : Nat :=
  if 0xE0 ≤ r ∧ r ≤ 0xFE ∧ r ≠ 0xF7 then r - 0x20
  else if r = 0xB5 then 0x39C
  else if r = 0xFF then 0x178
  else r

/-! ## The example program -/

/-- Stand-ins for the library functions of `GoLib` on plain text: a string of
printable ASCII characters without quotes and backslashes is quoted by
`strconv.Quote` by wrapping it in double quotes, and by `%#q` by wrapping it in
back quotes.  A directive left to `fmtOther` shows as the mark `%!(OTHER)`. -/
def plainLib : GoLib :=
  ⟨fun s => "\"" ++ s ++ "\"", fun s => "`" ++ s ++ "`", fun _ _ _ _ => "%!(OTHER)".data⟩

/-- The function `runHello` of `examples/helloWorld/hello.go`. -/
def runHello (_ : List String) : List Effect :=
  [.stdout "Hello world!\n"]

/-- The descriptor `cmdHello` of `examples/helloWorld/hello.go`. -/
def cmdHello : Command :=
  { Run := some runHello
    UsageLine := "hello"
    Short := "say hello to the world"
    Long := "\nHello greets the world with a friendly message.\n\nExample usage:\n\n  helloWorld hello\n\n"
    Flag := zeroFlagSet
    CustomFlags := false }

/-- The program of `examples/helloworld/main.go`. -/
def helloworld : App :=
  { Commands := [cmdHello]
    ApplicationName := "helloworld"
    ApplicationDescription := "Prints 'Hello World!' to the console." }

/-- A documentation-only descriptor with the name `hello`. -/
def docHello : Command :=
  { Run := none
    UsageLine := "hello topic"
    Short := "about greetings"
    Long := " Greetings are friendly. \n"
    Flag := zeroFlagSet
    CustomFlags := false }

/-- A command body that writes each argument it receives to the output stream,
reports the status 1 and registers a callback. -/
def runHelloCustom (args : List String) : List Effect :=
  args.map Effect.stdout ++ [.setExitStatus 1, .atexit 7 [.stderr "bye\n"]]

/-- A second command with the name `hello`, which parses its own arguments. -/
def cmdHelloCustom : Command :=
  { Run := some runHelloCustom
    UsageLine := "hello [-x] name"
    Short := "say hi"
    Long := "Hello with its own flags."
    Flag := zeroFlagSet
    CustomFlags := true }

/-- A command body that writes its arguments and registers a callback. -/
def runEcho (args : List String) : List Effect :=
  args.map Effect.stdout ++ [.atexit 5 [.stdout "done\n"]]

/-- A command named `echo` whose flag set defines no flag. -/
def cmdEcho : Command :=
  { Run := some runEcho
    UsageLine := "echo words"
    Short := "repeat the words"
    Long := "Echo repeats its arguments."
    Flag := zeroFlagSet
    CustomFlags := false }

/-- A registry with a documentation-only `echo` before the command `echo`. -/
def echoApp : App :=
  { Commands := [{ cmdEcho with Run := none }, cmdEcho, cmdHelloCustom]
    ApplicationName := "echoer"
    ApplicationDescription := "Repeats." }

/-- A registry with three descriptors named `hello`. -/
def threeHellos : App :=
  { Commands := [docHello, cmdHelloCustom, cmdHello]
    ApplicationName := "greeter"
    ApplicationDescription := "Greets." }

/-- A runnable command `hello` with the short description `say hi`. -/
def cmdHi : Command :=
  { Run := some runHello
    UsageLine := "hello"
    Short := "say hi"
    Long := "Says hi."
    Flag := zeroFlagSet
    CustomFlags := false }

/-- A runnable command whose name has 16 characters. -/
def cmdLongName : Command :=
  { Run := some runHello
    UsageLine := "averylongcommand [args]"
    Short := "does things"
    Long := "Does things."
    Flag := zeroFlagSet
    CustomFlags := false }

/-! ## Theorems -/

/-! ## Properties of `Name` -/

theorem isNot_self (sep : Char) : isNot sep sep = false := by simp [isNot]

theorem isNot_of_ne {sep x : Char} (h : x ≠ sep) : isNot sep x = true := by
  simp [isNot, h]

theorem stringsIndex_takeWhile (sep : Char) (cs : List Char) :
    (sep ∉ cs → stringsIndex cs sep = -1) ∧
    (sep ∈ cs → stringsIndex cs sep = ((cs.takeWhile (isNot sep)).length : Int)) := by
  induction cs with
  | nil => simp [stringsIndex]
  | cons c cs ih =>
    by_cases hc : c = sep
    · subst hc
      simp [stringsIndex, List.takeWhile_cons, isNot_self]
    · have hc' : ¬ sep = c := fun h => hc h.symm
      by_cases hm : sep ∈ cs
      · have h2 := ih.2 hm
        have hnn : (0 : Int) ≤ stringsIndex cs sep := by rw [h2]; exact Int.natCast_nonneg _
        simp [stringsIndex, hc, hm, hnn, List.takeWhile_cons, h2, isNot_of_ne hc]
      · have h1 := ih.1 hm
        simp [stringsIndex, hc, hc', hm, h1]

theorem takeWhile_eq_self_of_not_mem (sep : Char) (cs : List Char) (h : sep ∉ cs) :
    cs.takeWhile (isNot sep) = cs := by
  induction cs with
  | nil => rfl
  | cons c cs ih =>
    have hc : c ≠ sep := fun e => h (by simp [e])
    have hm : sep ∉ cs := fun e => h (List.mem_cons_of_mem _ e)
    rw [List.takeWhile_cons, isNot_of_ne hc, if_pos rfl, ih hm]

theorem takeWhile_append_sep (sep : Char) (pre post : List Char) (h : sep ∉ pre) :
    (pre ++ sep :: post).takeWhile (isNot sep) = pre := by
  induction pre with
  | nil => simp [List.takeWhile_cons, isNot_self]
  | cons c cs ih =>
    have hc : c ≠ sep := fun e => h (by simp [e])
    have hm : sep ∉ cs := fun e => h (List.mem_cons_of_mem _ e)
    rw [List.cons_append, List.takeWhile_cons, isNot_of_ne hc, if_pos rfl, ih hm]

theorem take_length_takeWhile (p : Char → Bool) (cs : List Char) :
    cs.take (cs.takeWhile p).length = cs.takeWhile p := by
  induction cs with
  | nil => rfl
  | cons c cs ih =>
    by_cases hc : p c = true
    · simp [List.takeWhile_cons, hc, ih]
    · simp [List.takeWhile_cons, hc]

theorem not_mem_takeWhile_isNot (sep : Char) (cs : List Char) :
    sep ∉ cs.takeWhile (isNot sep) := by
  intro h
  have := List.mem_takeWhile_imp h
  simp [isNot_self] at this

theorem takeWhile_isNot_split (sep : Char) (cs : List Char) (h : sep ∈ cs) :
    ∃ post, cs = cs.takeWhile (isNot sep) ++ sep :: post := by
  induction cs with
  | nil => simp at h
  | cons c cs ih =>
    by_cases hc : c = sep
    · subst hc
      exact ⟨cs, by simp [List.takeWhile_cons, isNot_self]⟩
    · have hm : sep ∈ cs := by
        rcases List.mem_cons.1 h with e | e
        · exact absurd e.symm hc
        · exact e
      obtain ⟨post, hp⟩ := ih hm
      refine ⟨post, ?_⟩
      rw [List.takeWhile_cons, isNot_of_ne hc, if_pos rfl, List.cons_append, ← hp]

theorem Name_data (c : Command) :
    c.Name.data = c.UsageLine.data.takeWhile (isNot ' ') := by
  unfold Command.Name
  by_cases hm : ' ' ∈ c.UsageLine.data
  · have h := (stringsIndex_takeWhile ' ' c.UsageLine.data).2 hm
    simp only [h, slicePrefix, ge_iff_le, Int.natCast_nonneg, if_true, Int.toNat_ofNat]
    exact take_length_takeWhile _ _
  · have h := (stringsIndex_takeWhile ' ' c.UsageLine.data).1 hm
    simp [h, takeWhile_eq_self_of_not_mem ' ' _ hm]

/-- C2: `Name()` is the part of `UsageLine` before its first space, the whole
`UsageLine` when it has no space, and is determined by `UsageLine` alone: two
descriptors with the same `UsageLine` have the same name whatever their other
fields are. -/
theorem C2_Name_is_first_word (c c' : Command) (pre post : List Char) :
    (' ' ∉ c.UsageLine.data → c.Name = c.UsageLine) ∧
    (' ' ∉ pre → c.UsageLine.data = pre ++ ' ' :: post → c.Name = String.mk pre) ∧
    (c'.UsageLine = c.UsageLine → c'.Name = c.Name) := by
  refine ⟨fun h => ?_, fun hpre hu => ?_, fun h => ?_⟩
  · apply String.ext
    rw [Name_data, takeWhile_eq_self_of_not_mem _ _ h]
  · apply String.ext
    rw [Name_data, hu, takeWhile_append_sep _ _ _ hpre]
  · apply String.ext
    rw [Name_data, Name_data, h]

theorem C2_Name_is_first_word_witness :
    cmdLongName.Name = "averylongcommand" ∧ cmdHello.Name = "hello" ∧
    docHello.Name = cmdHelloCustom.Name :=
  ⟨(C2_Name_is_first_word cmdLongName cmdHello "averylongcommand".data
      "[args]".data).2.1 (by decide) (by decide),
   (C2_Name_is_first_word cmdHello cmdHi [] []).1 (by decide),
   Eq.trans
    ((C2_Name_is_first_word docHello docHello "hello".data "topic".data).2.1
      (by decide) (by decide))
    ((C2_Name_is_first_word cmdHelloCustom cmdHelloCustom "hello".data
      "[-x] name".data).2.1 (by decide) (by decide)).symm⟩

/-! ## Exit status -/

theorem setExitStatus_exitStatus (n : Int) (st : State) :
    (setExitStatus n st).exitStatus = max st.exitStatus n := by
  unfold setExitStatus
  by_cases h : st.exitStatus < n
  · simp [h, max_eq_right (le_of_lt h)]
  · simp [h, max_eq_left (not_lt.1 h)]

theorem setExitStatus_atexitFuncs (n : Int) (st : State) :
    (setExitStatus n st).atexitFuncs = st.atexitFuncs := by
  unfold setExitStatus
  split <;> rfl

theorem setExitStatus_trace (n : Int) (st : State) :
    (setExitStatus n st).trace = st.trace := by
  unfold setExitStatus
  split <;> rfl

theorem reports_nil (st : State) : reports [] st = st := rfl

theorem reports_cons (n : Int) (ns : List Int) (st : State) :
    reports (n :: ns) st = reports ns (setExitStatus n st) := rfl

theorem reports_append (ns ms : List Int) (st : State) :
    reports (ns ++ ms) st = reports ms (reports ns st) := by
  simp [reports, List.foldl_append]

/-- After a sequence of reports the status is an upper bound of the status
before and of every value reported, and it is one of them. -/
theorem reports_is_max (ns : List Int) (st : State) :
    st.exitStatus ≤ (reports ns st).exitStatus ∧
    (∀ m ∈ ns, m ≤ (reports ns st).exitStatus) ∧
    ((reports ns st).exitStatus = st.exitStatus ∨ (reports ns st).exitStatus ∈ ns) := by
  induction ns generalizing st with
  | nil => simp [reports_nil]
  | cons n ns ih =>
    obtain ⟨h1, h2, h3⟩ := ih (setExitStatus n st)
    rw [setExitStatus_exitStatus] at h1 h3
    rw [reports_cons]
    refine ⟨le_trans (le_max_left _ _) h1, ?_, ?_⟩
    · intro m hm
      rcases List.mem_cons.1 hm with e | e
      · subst e
        exact le_trans (le_max_right _ _) h1
      · exact h2 m e
    · rcases h3 with e | e
      · rcases max_choice st.exitStatus n with c | c
        · left; rw [e, c]
        · right; rw [e, c]; exact List.mem_cons_self _ _
      · right; exact List.mem_cons_of_mem _ e

/-- C6: `setExitStatus(n)` leaves the maximum of the recorded status and `n`, so
the status never decreases; from the initial status 0 a sequence of reports
leaves the maximum of 0 and the reported values, in whatever order they come
(1 then 0 leaves 1, 0 then 2 leaves 2). -/
theorem C6_setExitStatus_is_running_max (st : State) (n : Int) (ns ns' : List Int)
    (hperm : ns'.Perm ns) :
    (setExitStatus n st).exitStatus = max st.exitStatus n ∧
    st.exitStatus ≤ (setExitStatus n st).exitStatus ∧
    (0 ≤ (reports ns State.init).exitStatus ∧
      (∀ m ∈ ns, m ≤ (reports ns State.init).exitStatus) ∧
      ((reports ns State.init).exitStatus = 0 ∨ (reports ns State.init).exitStatus ∈ ns)) ∧
    (reports ns' State.init).exitStatus = (reports ns State.init).exitStatus ∧
    (reports [1, 0] State.init).exitStatus = 1 ∧
    (reports [0, 2] State.init).exitStatus = 2 := by
  have hinit : State.init.exitStatus = 0 := rfl
  obtain ⟨a1, a2, a3⟩ := reports_is_max ns State.init
  obtain ⟨b1, b2, b3⟩ := reports_is_max ns' State.init
  rw [hinit] at a1 a3 b1 b3
  refine ⟨setExitStatus_exitStatus n st, ?_, ⟨a1, a2, a3⟩, ?_, by decide, by decide⟩
  · rw [setExitStatus_exitStatus]; exact le_max_left _ _
  · apply le_antisymm
    · rcases b3 with e | e
      · rw [e]; exact a1
      · exact a2 _ (hperm.mem_iff.1 e)
    · rcases a3 with e | e
      · rw [e]; exact b1
      · exact b2 _ (hperm.mem_iff.2 e)

theorem C6_setExitStatus_is_running_max_witness :
    (setExitStatus 3 ⟨5, [], []⟩).exitStatus = max (5 : Int) 3 ∧
    (reports [2, 7, 1] State.init).exitStatus = (reports [1, 2, 7] State.init).exitStatus :=
  ⟨(C6_setExitStatus_is_running_max ⟨5, [], []⟩ 3 [1, 2, 7] [2, 7, 1] (by decide)).1,
   (C6_setExitStatus_is_running_max ⟨5, [], []⟩ 3 [1, 2, 7] [2, 7, 1] (by decide)).2.2.2.1⟩

/-! ## Traces of the building blocks -/

/-- The status after a sequence of reports depends on the status before only. -/
theorem reports_exitStatus_congr (ns : List Int) (st st' : State)
    (h : st.exitStatus = st'.exitStatus) :
    (reports ns st).exitStatus = (reports ns st').exitStatus := by
  have h1 := reports_is_max ns st
  have h2 := reports_is_max ns st'
  rw [h] at h1
  apply le_antisymm
  · rcases h1.2.2 with e | e
    · rw [e]; exact h2.1
    · exact h2.2.1 _ e
  · rcases h2.2.2 with e | e
    · rw [e]; exact h1.1
    · exact h1.2.1 _ e


theorem emit_trace (e : Event) (st : State) : (emit e st).trace = st.trace ++ [e] := rfl

theorem emit_exitStatus (e : Event) (st : State) : (emit e st).exitStatus = st.exitStatus := rfl

theorem emit_atexitFuncs (e : Event) (st : State) :
    (emit e st).atexitFuncs = st.atexitFuncs := rfl

theorem write_exitStatus (w : Stream) (s : String) (st : State) :
    (write w s st).exitStatus = st.exitStatus := by
  cases w <;> rfl

theorem write_atexitFuncs (w : Stream) (s : String) (st : State) :
    (write w s st).atexitFuncs = st.atexitFuncs := by
  cases w <;> rfl

theorem write_stdout_trace (s : String) (st : State) :
    (write .Stdout s st).trace = st.trace ++ [.stdout s] := rfl

theorem write_stderr_trace (s : String) (st : State) :
    (write .Stderr s st).trace = st.trace ++ [.stderr s] := rfl

theorem runEffect_callbackCalls (e : Effect) (st : State) :
    callbackCalls (runEffect e st).trace = callbackCalls st.trace := by
  cases e <;> simp [runEffect, emit_trace, setExitStatus_trace, callbackCalls, atexit]

theorem runEffect_runCalls (e : Effect) (st : State) :
    runCalls (runEffect e st).trace = runCalls st.trace := by
  cases e <;> simp [runEffect, emit_trace, setExitStatus_trace, runCalls, atexit]

theorem runEffect_parseCalls (e : Effect) (st : State) :
    parseCalls (runEffect e st).trace = parseCalls st.trace := by
  cases e <;> simp [runEffect, emit_trace, setExitStatus_trace, parseCalls, atexit]

theorem runEffects_callbackCalls (body : List Effect) (st : State) :
    callbackCalls (body.foldl (fun s e => runEffect e s) st).trace =
      callbackCalls st.trace := by
  induction body generalizing st with
  | nil => rfl
  | cons e es ih => rw [List.foldl_cons, ih, runEffect_callbackCalls]

theorem runEffects_runCalls (body : List Effect) (st : State) :
    runCalls (body.foldl (fun s e => runEffect e s) st).trace = runCalls st.trace := by
  induction body generalizing st with
  | nil => rfl
  | cons e es ih => rw [List.foldl_cons, ih, runEffect_runCalls]

theorem runEffects_parseCalls (body : List Effect) (st : State) :
    parseCalls (body.foldl (fun s e => runEffect e s) st).trace = parseCalls st.trace := by
  induction body generalizing st with
  | nil => rfl
  | cons e es ih => rw [List.foldl_cons, ih, runEffect_parseCalls]

theorem runEffects_exitStatus (body : List Effect) (st : State) :
    (body.foldl (fun s e => runEffect e s) st).exitStatus =
      (reports (reported body) st).exitStatus := by
  induction body generalizing st with
  | nil => rfl
  | cons e es ih =>
    rw [List.foldl_cons, ih]
    cases e with
    | stdout s => exact reports_exitStatus_congr (reported es) _ st rfl
    | stderr s => exact reports_exitStatus_congr (reported es) _ st rfl
    | setExitStatus n => rfl
    | atexit l b => exact reports_exitStatus_congr (reported es) _ st rfl

theorem runCallback_callbackCalls (f : Callback) (st : State) :
    callbackCalls (runCallback f st).trace = callbackCalls st.trace ++ [f.label] := by
  unfold runCallback
  rw [runEffects_callbackCalls, emit_trace]
  simp [callbackCalls]

theorem runCallback_runCalls (f : Callback) (st : State) :
    runCalls (runCallback f st).trace = runCalls st.trace := by
  unfold runCallback
  rw [runEffects_runCalls, emit_trace]
  simp [runCalls]

theorem runCallback_parseCalls (f : Callback) (st : State) :
    parseCalls (runCallback f st).trace = parseCalls st.trace := by
  unfold runCallback
  rw [runEffects_parseCalls, emit_trace]
  simp [parseCalls]

theorem runCallbacks_callbackCalls (fs : List Callback) (st : State) :
    callbackCalls (fs.foldl (fun s f => runCallback f s) st).trace =
      callbackCalls st.trace ++ fs.map Callback.label := by
  induction fs generalizing st with
  | nil => simp
  | cons f fs ih => rw [List.foldl_cons, ih, runCallback_callbackCalls]; simp

theorem runCallbacks_runCalls (fs : List Callback) (st : State) :
    runCalls (fs.foldl (fun s f => runCallback f s) st).trace = runCalls st.trace := by
  induction fs generalizing st with
  | nil => rfl
  | cons f fs ih => rw [List.foldl_cons, ih, runCallback_runCalls]

theorem runCallbacks_parseCalls (fs : List Callback) (st : State) :
    parseCalls (fs.foldl (fun s f => runCallback f s) st).trace = parseCalls st.trace := by
  induction fs generalizing st with
  | nil => rfl
  | cons f fs ih => rw [List.foldl_cons, ih, runCallback_parseCalls]

theorem registerAll_atexitFuncs (fs : List Callback) (st : State) :
    (registerAll fs st).atexitFuncs = st.atexitFuncs ++ fs := by
  induction fs generalizing st with
  | nil => simp [registerAll]
  | cons f fs ih =>
    have : registerAll (f :: fs) st = registerAll fs (atexit f st) := rfl
    rw [this, ih]
    simp [atexit]

theorem registerAll_trace (fs : List Callback) (st : State) :
    (registerAll fs st).trace = st.trace := by
  induction fs generalizing st with
  | nil => rfl
  | cons f fs ih =>
    have : registerAll (f :: fs) st = registerAll fs (atexit f st) := rfl
    rw [this, ih]
    rfl

theorem registerAll_exitStatus (fs : List Callback) (st : State) :
    (registerAll fs st).exitStatus = st.exitStatus := by
  induction fs generalizing st with
  | nil => rfl
  | cons f fs ih =>
    have : registerAll (f :: fs) st = registerAll fs (atexit f st) := rfl
    rw [this, ih]
    rfl

/-! ## Shutdown callbacks -/

theorem runCallback_exitStatus (f : Callback) (st : State) :
    (runCallback f st).exitStatus = (reports (reported f.body) st).exitStatus := by
  unfold runCallback
  rw [runEffects_exitStatus]
  have h1 := reports_is_max (reported f.body) (emit (.callback f.label) st)
  have h2 := reports_is_max (reported f.body) st
  rw [emit_exitStatus] at h1
  apply le_antisymm
  · rcases h1.2.2 with e | e
    · rw [e]; exact h2.1
    · exact h2.2.1 _ e
  · rcases h2.2.2 with e | e
    · rw [e]; exact h1.1
    · exact h1.2.1 _ e

theorem runCallbacks_exitStatus (fs : List Callback) (st : State) :
    (fs.foldl (fun s f => runCallback f s) st).exitStatus =
      (reports (reportedBy fs) st).exitStatus := by
  induction fs generalizing st with
  | nil => rfl
  | cons f fs ih =>
    rw [List.foldl_cons, ih]
    show _ = (reports (reported f.body ++ reportedBy fs) st).exitStatus
    rw [reports_append]
    exact reports_exitStatus_congr _ _ _ (runCallback_exitStatus f st)

theorem writeEvents_cons (e : Effect) (es : List Effect) :
    writeEvents (e :: es) = writeEvents [e] ++ writeEvents es := by
  cases e <;> rfl

theorem registered_cons (e : Effect) (es : List Effect) :
    registered (e :: es) = registered [e] ++ registered es := by
  cases e <;> rfl

theorem runEffect_trace (e : Effect) (st : State) :
    (runEffect e st).trace = st.trace ++ writeEvents [e] := by
  cases e <;> simp [runEffect, emit_trace, setExitStatus_trace, atexit, writeEvents]

theorem runEffect_atexitFuncs (e : Effect) (st : State) :
    (runEffect e st).atexitFuncs = st.atexitFuncs ++ registered [e] := by
  cases e <;> simp [runEffect, emit_atexitFuncs, setExitStatus_atexitFuncs, atexit, registered]

/-- The effects of a body reach the trace in order. -/
theorem runEffects_trace (body : List Effect) (st : State) :
    (body.foldl (fun s e => runEffect e s) st).trace = st.trace ++ writeEvents body := by
  induction body generalizing st with
  | nil => simp [writeEvents]
  | cons e es ih =>
    rw [List.foldl_cons, ih, runEffect_trace, writeEvents_cons e es, List.append_assoc]

theorem runEffects_atexitFuncs (body : List Effect) (st : State) :
    (body.foldl (fun s e => runEffect e s) st).atexitFuncs =
      st.atexitFuncs ++ registered body := by
  induction body generalizing st with
  | nil => simp [registered]
  | cons e es ih =>
    rw [List.foldl_cons, ih, runEffect_atexitFuncs, registered_cons e es, List.append_assoc]

theorem runCallback_trace (f : Callback) (st : State) :
    (runCallback f st).trace = st.trace ++ (.callback f.label :: writeEvents f.body) := by
  unfold runCallback
  rw [runEffects_trace, emit_trace]
  simp

theorem runCallback_atexitFuncs (f : Callback) (st : State) :
    (runCallback f st).atexitFuncs = st.atexitFuncs ++ registered f.body := by
  unfold runCallback
  rw [runEffects_atexitFuncs, emit_atexitFuncs]

/-- Callbacks called one after the other leave their calls and the writes of
their bodies in the trace, in that order. -/
theorem runCallbacks_trace (fs : List Callback) (st : State) :
    (fs.foldl (fun s f => runCallback f s) st).trace = st.trace ++ callbackEvents fs := by
  induction fs generalizing st with
  | nil => simp [callbackEvents]
  | cons f fs ih =>
    rw [List.foldl_cons, ih, runCallback_trace]
    simp [callbackEvents]

theorem runCallbacks_atexitFuncs (fs : List Callback) (st : State) :
    (fs.foldl (fun s f => runCallback f s) st).atexitFuncs =
      st.atexitFuncs ++ registeredBy fs := by
  induction fs generalizing st with
  | nil => simp [registeredBy]
  | cons f fs ih =>
    rw [List.foldl_cons, ih, runCallback_atexitFuncs]
    simp [registeredBy]

theorem exit_trace (st : State) :
    (exit st).1.trace = st.trace ++ callbackEvents st.atexitFuncs :=
  runCallbacks_trace _ _

theorem exit_atexitFuncs (st : State) :
    (exit st).1.atexitFuncs = st.atexitFuncs ++ registeredBy st.atexitFuncs :=
  runCallbacks_atexitFuncs _ _

theorem Usage_trace (lib : GoLib) (c : Command) (st : State) :
    (c.Usage lib st).1.trace =
      st.trace ++ [.stderr (Sprintf lib "usage: %s\n\n" [c.UsageLine]),
        .stderr (Sprintf lib "%s\n" [TrimSpace c.Long])] := by
  show (write _ _ (write _ _ st)).trace = _
  rw [write_stderr_trace, write_stderr_trace]
  simp

theorem exit_outcome (st : State) :
    (exit st).2 = .exited (reports (reportedBy st.atexitFuncs) st).exitStatus := by
  show Outcome.exited _ = _
  rw [runCallbacks_exitStatus]

theorem exit_callbackCalls (st : State) :
    callbackCalls (exit st).1.trace =
      callbackCalls st.trace ++ st.atexitFuncs.map Callback.label :=
  runCallbacks_callbackCalls _ _

theorem callbackCalls_write (w : Stream) (s : String) (st : State) :
    callbackCalls (write w s st).trace = callbackCalls st.trace := by
  cases w <;> simp [write, emit_trace, callbackCalls]

theorem runCalls_write (w : Stream) (s : String) (st : State) :
    runCalls (write w s st).trace = runCalls st.trace := by
  cases w <;> simp [write, emit_trace, runCalls]

theorem parseCalls_write (w : Stream) (s : String) (st : State) :
    parseCalls (write w s st).trace = parseCalls st.trace := by
  cases w <;> simp [write, emit_trace, parseCalls]

/-- What `helpLoop` does, by the first descriptor of the list named `arg`. -/
theorem helpLoop_eq (app : App) (lib : GoLib) (arg : String) (cmds : List Command)
    (st : State) :
    helpLoop app lib arg cmds st =
      match cmds.find? (fun c => decide (c.Name = arg)) with
      | some cmd => (write .Stdout (helpText app cmd) st, .returned)
      | none =>
        (write .Stderr
          (Sprintf lib ("Unknown help topic %#q. Run '" ++ app.ApplicationName ++ " help'.\n")
            [arg]) st, .exited 2) := by
  induction cmds with
  | nil => rfl
  | cons c cs ih =>
    by_cases h : c.Name = arg
    · simp [helpLoop, List.find?_cons, h]
    · simp [helpLoop, List.find?_cons, h, ih]

/-- Every path of `help` is one write to a stream. -/
theorem help_is_write (app : App) (lib : GoLib) (args : List String) (st : State) :
    ∃ w s, (help app lib args st).1 = write w s st := by
  unfold help
  split
  · exact ⟨.Stdout, usageText app, rfl⟩
  · split
    · exact ⟨.Stderr, Sprintf lib ("usage: " ++ app.ApplicationName ++
        " help command\n\nToo many arguments given.\n") [], rfl⟩
    · rw [helpLoop_eq]
      split
      · exact ⟨.Stdout, helpText app _, rfl⟩
      · exact ⟨.Stderr, Sprintf lib ("Unknown help topic %#q. Run '" ++
          app.ApplicationName ++ " help'.\n") [args.getD 0 ""], rfl⟩

theorem help_callbackCalls (app : App) (lib : GoLib) (args : List String) (st : State) :
    callbackCalls (help app lib args st).1.trace = callbackCalls st.trace := by
  obtain ⟨w, s, h⟩ := help_is_write app lib args st
  rw [h, callbackCalls_write]

theorem help_too_many (app : App) (lib : GoLib) (args : List String) (st : State)
    (h : 2 ≤ args.length) :
    help app lib args st =
      (write .Stderr
        (Sprintf lib ("usage: " ++ app.ApplicationName ++
          " help command\n\nToo many arguments given.\n") []) st, .exited 2) := by
  unfold help
  have h0 : ¬ args.length = 0 := by omega
  have h1 : args.length ≠ 1 := by omega
  simp only [h0, h1, if_false, if_true, ne_eq, not_false_eq_true]

theorem help_one (app : App) (lib : GoLib) (t : String) (st : State) :
    help app lib [t] st = helpLoop app lib t app.Commands st := by
  simp [help]

theorem find?_name_none (cmds : List Command) (t : String)
    (h : ∀ c ∈ cmds, c.Name ≠ t) :
    cmds.find? (fun c => decide (c.Name = t)) = none := by
  rw [List.find?_eq_none]
  intro c hc
  simpa using h c hc

theorem help_unknown_topic (app : App) (lib : GoLib) (t : String) (st : State)
    (h : ∀ c ∈ app.Commands, c.Name ≠ t) :
    help app lib [t] st =
      (write .Stderr
        (Sprintf lib ("Unknown help topic %#q. Run '" ++ app.ApplicationName ++ " help'.\n")
          [t]) st, .exited 2) := by
  rw [help_one, helpLoop_eq, find?_name_none _ _ h]

theorem Usage_outcome (lib : GoLib) (c : Command) (st : State) :
    (c.Usage lib st).2 = .exited 2 := rfl

theorem Usage_callbackCalls (lib : GoLib) (c : Command) (st : State) :
    callbackCalls (c.Usage lib st).1.trace = callbackCalls st.trace := by
  show callbackCalls (write _ _ (write _ _ st)).trace = _
  rw [callbackCalls_write, callbackCalls_write]

theorem Usage_runCalls (lib : GoLib) (c : Command) (st : State) :
    runCalls (c.Usage lib st).1.trace = runCalls st.trace := by
  show runCalls (write _ _ (write _ _ st)).trace = _
  rw [runCalls_write, runCalls_write]

/-- C7, as the code has it: `exit()` calls the callbacks that `atexit` has
registered when it starts, in the order of registration and each registration
once, each call running the body of the callback, and then ends the process with
the recorded exit status; a callback that a callback registers while `exit()`
runs is added to the list and not called.  `Command.Usage`, `usage()` and the
two error paths of `help` write to the error stream only, call no registered
callback and end the process with status 2. -/
theorem C7_exit_runs_callbacks_registered_before_it (app : App) (lib : GoLib)
    (st : State) (fs : List Callback) (c : Command) (args : List String) (t : String) :
    (exit (registerAll fs st)).1.trace = st.trace ++ callbackEvents (st.atexitFuncs ++ fs) ∧
    callbackCalls (exit (registerAll fs st)).1.trace =
      callbackCalls st.trace ++ (st.atexitFuncs ++ fs).map Callback.label ∧
    callbackCalls (exit (registerAll fs State.init)).1.trace = fs.map Callback.label ∧
    (exit (registerAll fs st)).1.atexitFuncs =
      st.atexitFuncs ++ fs ++ registeredBy (st.atexitFuncs ++ fs) ∧
    (exit (registerAll fs st)).1.exitStatus =
      (reports (reportedBy (st.atexitFuncs ++ fs)) st).exitStatus ∧
    (exit (registerAll fs st)).2 =
      .exited (reports (reportedBy (st.atexitFuncs ++ fs)) st).exitStatus ∧
    ((c.Usage lib st).2 = .exited 2 ∧
      callbackCalls (c.Usage lib st).1.trace = callbackCalls st.trace ∧
      (c.Usage lib st).1.trace =
        st.trace ++ [.stderr (Sprintf lib "usage: %s\n\n" [c.UsageLine]),
          .stderr (Sprintf lib "%s\n" [TrimSpace c.Long])]) ∧
    ((usage app st).2 = .exited 2 ∧
      callbackCalls (usage app st).1.trace = callbackCalls st.trace ∧
      (usage app st).1.trace = st.trace ++ [.stderr (usageText app)]) ∧
    (2 ≤ args.length →
      (help app lib args st).2 = .exited 2 ∧
      callbackCalls (help app lib args st).1.trace = callbackCalls st.trace ∧
      ∃ s, (help app lib args st).1.trace = st.trace ++ [.stderr s]) ∧
    ((∀ c ∈ app.Commands, c.Name ≠ t) →
      (help app lib [t] st).2 = .exited 2 ∧
      callbackCalls (help app lib [t] st).1.trace = callbackCalls st.trace ∧
      ∃ s, (help app lib [t] st).1.trace = st.trace ++ [.stderr s]) := by
  have hcalls : ∀ s0 : State, callbackCalls (exit (registerAll fs s0)).1.trace =
      callbackCalls s0.trace ++ (s0.atexitFuncs ++ fs).map Callback.label := by
    intro s0
    rw [exit_callbackCalls, registerAll_atexitFuncs, registerAll_trace]
  have hstatus : (exit (registerAll fs st)).1.exitStatus =
      (reports (reportedBy (st.atexitFuncs ++ fs)) st).exitStatus := by
    show (List.foldl (fun s f => runCallback f s) (registerAll fs st)
        (registerAll fs st).atexitFuncs).exitStatus = _
    rw [runCallbacks_exitStatus, registerAll_atexitFuncs]
    exact reports_exitStatus_congr _ _ _ (registerAll_exitStatus fs st)
  refine ⟨?_, hcalls st, ?_, ?_, hstatus, ?_,
    ⟨rfl, Usage_callbackCalls lib c st, Usage_trace lib c st⟩,
    ⟨rfl, callbackCalls_write _ _ _, rfl⟩, ?_, ?_⟩
  · rw [exit_trace, registerAll_atexitFuncs, registerAll_trace]
  · have := hcalls State.init
    simpa [State.init, callbackCalls] using this
  · rw [exit_atexitFuncs, registerAll_atexitFuncs]
  · rw [← hstatus]
    rfl
  · intro h
    rw [help_too_many app lib args st h]
    exact ⟨rfl, callbackCalls_write _ _ _, ⟨_, rfl⟩⟩
  · intro h
    rw [help_unknown_topic app lib t st h]
    exact ⟨rfl, callbackCalls_write _ _ _, ⟨_, rfl⟩⟩

theorem C7_exit_runs_callbacks_registered_before_it_witness :
    (exit (registerAll
        [⟨1, [.stdout "A"]⟩, ⟨2, [.setExitStatus 3, .stdout "B", .atexit 9 [.stdout "late"]]⟩,
          ⟨3, [.stdout "C"]⟩] State.init)).1.trace =
      [.callback 1, .stdout "A", .callback 2, .stdout "B", .callback 3, .stdout "C"] ∧
    (exit (registerAll
        [⟨1, [.stdout "A"]⟩, ⟨2, [.setExitStatus 3, .stdout "B", .atexit 9 [.stdout "late"]]⟩,
          ⟨3, [.stdout "C"]⟩] State.init)).2 = .exited 3 ∧
    (help helloworld plainLib ["a", "b"] (registerAll [⟨1, [.stdout "A"]⟩] State.init)).2 =
      .exited 2 ∧
    callbackCalls
      (help helloworld plainLib ["a", "b"]
        (registerAll [⟨1, [.stdout "A"]⟩] State.init)).1.trace = [] ∧
    (help helloworld plainLib ["bye"] (registerAll [⟨1, [.stdout "A"]⟩] State.init)).2 =
      .exited 2 ∧
    callbackCalls
      (help helloworld plainLib ["bye"]
        (registerAll [⟨1, [.stdout "A"]⟩] State.init)).1.trace = [] :=
  have h := C7_exit_runs_callbacks_registered_before_it helloworld plainLib State.init
    [⟨1, [.stdout "A"]⟩, ⟨2, [.setExitStatus 3, .stdout "B", .atexit 9 [.stdout "late"]]⟩,
      ⟨3, [.stdout "C"]⟩] cmdHello ["a", "b"] "bye"
  have g := C7_exit_runs_callbacks_registered_before_it helloworld plainLib
    (registerAll [⟨1, [.stdout "A"]⟩] State.init) [] cmdHello ["a", "b"] "bye"
  ⟨h.1, h.2.2.2.2.2.1, (g.2.2.2.2.2.2.2.2.1 (by decide)).1,
    (g.2.2.2.2.2.2.2.2.1 (by decide)).2.1, (g.2.2.2.2.2.2.2.2.2 (by decide)).1,
    (g.2.2.2.2.2.2.2.2.2 (by decide)).2.1⟩

/-- C7 as stated fails for a callback registered while `exit()` runs: when the
one registered callback registers a second one through `atexit`, `exit()` ends
the process with two callbacks in the list and only the first one called; the
body of the second never runs. -/
theorem C7_counterexample_registered_during_exit :
    (exit (registerAll [⟨1, [.atexit 2 [.stdout "late"]]⟩] State.init)).1.atexitFuncs.map
      Callback.label = [1, 2] ∧
    callbackCalls
      (exit (registerAll [⟨1, [.atexit 2 [.stdout "late"]]⟩] State.init)).1.trace = [1] ∧
    stdoutWrites
      (exit (registerAll [⟨1, [.atexit 2 [.stdout "late"]]⟩] State.init)).1.trace = [] ∧
    (exit (registerAll [⟨1, [.atexit 2 [.stdout "late"]]⟩] State.init)).2 = .exited 0 := by
  decide

/-! ## The dispatch loop -/

/-- The loop of `Init` stops at the first descriptor, in registry order, that has
the name `args[0]` and a `Run`. -/
theorem dispatch_first (app : App) (lib : GoLib) (args : List String)
    (cmds : List Command) (k i : Nat) (st : State) (hi : i < cmds.length)
    (body : List String → List Effect) (hrun : cmds[i].Run = some body)
    (hname : cmds[i].Name = args.getD 0 "")
    (hfirst : ∀ j (hj : j < i),
      ¬ (cmds[j].Name = args.getD 0 "" ∧ cmds[j].Runnable = true)) :
    dispatch app lib args cmds k st = runMatched lib args (k + i) cmds[i] body st := by
  induction cmds generalizing k i with
  | nil => simp at hi
  | cons c cs ih =>
    cases i with
    | zero =>
      simp only [List.getElem_cons_zero] at hrun hname
      simp [dispatch, hrun, hname]
    | succ i =>
      have hi' : i < cs.length := by simpa using hi
      simp only [List.getElem_cons_succ] at hrun hname
      have h0 := hfirst 0 (Nat.succ_pos i)
      simp only [List.getElem_cons_zero] at h0
      have hstep : dispatch app lib args (c :: cs) k st =
          dispatch app lib args cs (k + 1) st := by
        cases hr : c.Run with
        | none => simp [dispatch, hr]
        | some b =>
          have hn : ¬ c.Name = args.getD 0 "" := fun e =>
            h0 ⟨e, by simp [Command.Runnable, hr]⟩
          simp only [dispatch, hr, if_neg hn]
      rw [hstep, ih (k + 1) i hi' hrun hname]
      · simp only [List.getElem_cons_succ]
        congr 1
        omega
      · intro j hj
        have := hfirst (j + 1) (Nat.succ_lt_succ hj)
        simpa only [List.getElem_cons_succ] using this

/-- Without a descriptor that has the name `args[0]` and a `Run`, the loop of
`Init` falls through to the statements after it. -/
theorem dispatch_no_match (app : App) (lib : GoLib) (args : List String)
    (cmds : List Command) (k : Nat) (st : State)
    (h : ∀ c ∈ cmds, ¬ (c.Name = args.getD 0 "" ∧ c.Runnable = true)) :
    dispatch app lib args cmds k st =
      (write .Stderr
        (Sprintf lib (app.ApplicationName ++ ": unknown subcommand %q\nRun '" ++
          app.ApplicationName ++ " help` for usage.\n") [args.getD 0 ""]) st,
        .returned) := by
  induction cmds generalizing k with
  | nil => rfl
  | cons c cs ih =>
    have h0 := h c (List.mem_cons_self _ _)
    have hstep : dispatch app lib args (c :: cs) k st =
        dispatch app lib args cs (k + 1) st := by
      cases hr : c.Run with
      | none => simp [dispatch, hr]
      | some b =>
        have hn : ¬ c.Name = args.getD 0 "" := fun e =>
          h0 ⟨e, by simp [Command.Runnable, hr]⟩
        simp only [dispatch, hr, if_neg hn]
    rw [hstep, ih (k + 1) (fun c hc => h c (List.mem_cons_of_mem _ hc))]

theorem Init_cons (app : App) (lib : GoLib) (t : String) (rest : List String)
    (st : State) (ht : t ≠ "help") :
    Init app lib (t :: rest) st = dispatch app lib (t :: rest) app.Commands 0 st := by
  simp [Init, ht]

theorem Init_help (app : App) (lib : GoLib) (rest : List String) (st : State) :
    Init app lib ("help" :: rest) st = help app lib rest st := by
  simp [Init]

theorem Init_nil (app : App) (lib : GoLib) (st : State) :
    Init app lib [] st = usage app st := by
  simp [Init]

/-- A call of `Run` followed by `exit()` adds exactly one invocation. -/
theorem runThenExit_runCalls (i : Nat) (body : List String → List Effect)
    (a : List String) (st : State) :
    runCalls (runThenExit i body a st).1.trace = runCalls st.trace ++ [(i, a)] := by
  show runCalls (List.foldl (fun s f => runCallback f s) _ _).trace = _
  rw [runCallbacks_runCalls, runEffects_runCalls, emit_trace]
  simp [runCalls]

theorem runThenExit_parseCalls (i : Nat) (body : List String → List Effect)
    (a : List String) (st : State) :
    parseCalls (runThenExit i body a st).1.trace = parseCalls st.trace := by
  show parseCalls (List.foldl (fun s f => runCallback f s) _ _).trace = _
  rw [runCallbacks_parseCalls, runEffects_parseCalls, emit_trace]
  simp [parseCalls]

/-- A call of `Run` followed by `exit()`: the call, the writes of the body on the
arguments passed, and then the callbacks registered before the call and by the
body. -/
theorem runThenExit_trace (i : Nat) (body : List String → List Effect)
    (a : List String) (st : State) :
    (runThenExit i body a st).1.trace =
      st.trace ++ (.run i a :: writeEvents (body a)) ++
        callbackEvents (st.atexitFuncs ++ registered (body a)) := by
  unfold runThenExit
  rw [exit_trace, runEffects_trace, runEffects_atexitFuncs, emit_trace, emit_atexitFuncs]
  simp

theorem runThenExit_outcome (i : Nat) (body : List String → List Effect)
    (a : List String) (st : State) :
    (runThenExit i body a st).2 =
      .exited (reports (reported (body a) ++
        reportedBy (st.atexitFuncs ++ registered (body a))) st).exitStatus := by
  unfold runThenExit
  rw [exit_outcome, runEffects_atexitFuncs, emit_atexitFuncs, reports_append]
  congr 1
  apply reports_exitStatus_congr
  rw [runEffects_exitStatus]
  exact reports_exitStatus_congr _ _ _ rfl

theorem runMatched_custom (lib : GoLib) (args : List String) (i : Nat) (cmd : Command)
    (body : List String → List Effect) (st : State) (h : cmd.CustomFlags = true) :
    runMatched lib args i cmd body st = runThenExit i body (args.drop 1) st := by
  simp [runMatched, h]

theorem runMatched_parse_ok (lib : GoLib) (args : List String) (i : Nat) (cmd : Command)
    (body : List String → List Effect) (st : State) (left : List String)
    (h : cmd.CustomFlags = false) (hp : cmd.Flag.Parse (args.drop 1) = .ok left) :
    runMatched lib args i cmd body st =
      runThenExit i body left (emit (.parse i (args.drop 1)) st) := by
  simp only [runMatched, h, hp, Bool.false_eq_true, if_false]

theorem runMatched_parse_fail (lib : GoLib) (args : List String) (i : Nat) (cmd : Command)
    (body : List String → List Effect) (st : State) (msg : Option String)
    (h : cmd.CustomFlags = false) (hp : cmd.Flag.Parse (args.drop 1) = .fail msg) :
    (runMatched lib args i cmd body st).2 = .exited 2 ∧
    runCalls (runMatched lib args i cmd body st).1.trace = runCalls st.trace := by
  cases msg with
  | none =>
    simp only [runMatched, h, hp, Bool.false_eq_true, if_false]
    refine ⟨rfl, ?_⟩
    rw [Usage_runCalls, emit_trace]
    simp [runCalls]
  | some m =>
    simp only [runMatched, h, hp, Bool.false_eq_true, if_false]
    refine ⟨rfl, ?_⟩
    rw [Usage_runCalls, runCalls_write, emit_trace]
    simp [runCalls]

/-! ## Dispatch to a command -/

/-- A list with an element satisfying `p` has a first position that does. -/
theorem exists_first_index (p : Command → Prop) (cmds : List Command)
    (h : ∃ c ∈ cmds, p c) :
    ∃ i, ∃ hi : i < cmds.length, p cmds[i] ∧ ∀ j (hj : j < i), ¬ p cmds[j] := by
  induction cmds with
  | nil =>
    obtain ⟨c, hc, _⟩ := h
    simp at hc
  | cons c cs ih =>
    by_cases hp : p c
    · exact ⟨0, Nat.succ_pos _, hp, fun j hj => absurd hj (Nat.not_lt_zero j)⟩
    · have h' : ∃ c' ∈ cs, p c' := by
        obtain ⟨c', hc', hpc'⟩ := h
        rcases List.mem_cons.1 hc' with e | e
        · subst e; exact absurd hpc' hp
        · exact ⟨c', e, hpc'⟩
      obtain ⟨i, hi, hpi, hlt⟩ := ih h'
      refine ⟨i + 1, Nat.succ_lt_succ hi, hpi, ?_⟩
      intro j hj
      cases j with
      | zero => exact hp
      | succ j => exact hlt j (Nat.lt_of_succ_lt_succ hj)

/-- What `Init` does when the descriptor at position `i`, with `Run` equal to
`body`, is the first with the name `t` and a `Run`. -/
theorem Init_first_match (app : App) (lib : GoLib) (t : String)
    (rest : List String) (st : State) (i : Nat) (hi : i < app.Commands.length)
    (body : List String → List Effect) (ht : t ≠ "help")
    (hname : app.Commands[i].Name = t) (hbody : app.Commands[i].Run = some body)
    (hfirst : ∀ j (hj : j < i),
      ¬ (app.Commands[j].Name = t ∧ app.Commands[j].Runnable = true)) :
    (app.Commands[i].CustomFlags = true →
      (Init app lib (t :: rest) st).1.trace =
        st.trace ++ (.run i rest :: writeEvents (body rest)) ++
          callbackEvents (st.atexitFuncs ++ registered (body rest)) ∧
      (Init app lib (t :: rest) st).2 =
        .exited (reports (reported (body rest) ++
          reportedBy (st.atexitFuncs ++ registered (body rest))) st).exitStatus ∧
      runCalls (Init app lib (t :: rest) st).1.trace = runCalls st.trace ++ [(i, rest)] ∧
      parseCalls (Init app lib (t :: rest) st).1.trace = parseCalls st.trace) ∧
    (∀ left, app.Commands[i].CustomFlags = false →
      app.Commands[i].Flag.Parse rest = .ok left →
      (Init app lib (t :: rest) st).1.trace =
        st.trace ++ (.parse i rest :: .run i left :: writeEvents (body left)) ++
          callbackEvents (st.atexitFuncs ++ registered (body left)) ∧
      (Init app lib (t :: rest) st).2 =
        .exited (reports (reported (body left) ++
          reportedBy (st.atexitFuncs ++ registered (body left))) st).exitStatus ∧
      runCalls (Init app lib (t :: rest) st).1.trace = runCalls st.trace ++ [(i, left)]) ∧
    (∀ msg, app.Commands[i].CustomFlags = false →
      app.Commands[i].Flag.Parse rest = .fail msg →
      (Init app lib (t :: rest) st).1.trace =
        st.trace ++ (.parse i rest :: msg.toList.map Event.stderr) ++
          [.stderr (Sprintf lib "usage: %s\n\n" [app.Commands[i].UsageLine]),
            .stderr (Sprintf lib "%s\n" [TrimSpace app.Commands[i].Long])] ∧
      runCalls (Init app lib (t :: rest) st).1.trace = runCalls st.trace ∧
      (Init app lib (t :: rest) st).2 = .exited 2) := by
  have hd := dispatch_first app lib (t :: rest) app.Commands 0 i st hi body hbody hname hfirst
  rw [Nat.zero_add] at hd
  refine ⟨fun hc => ?_, fun left hc hp => ?_, fun msg hc hp => ?_⟩
  · rw [Init_cons _ _ _ _ _ ht, hd, runMatched_custom _ _ _ _ _ _ hc, runThenExit_runCalls,
      runThenExit_parseCalls, runThenExit_trace, runThenExit_outcome]
    exact ⟨rfl, rfl, rfl, rfl⟩
  · rw [Init_cons _ _ _ _ _ ht, hd, runMatched_parse_ok lib (t :: rest) i _ body st left hc hp,
      runThenExit_runCalls, runThenExit_trace, runThenExit_outcome, emit_trace,
      emit_atexitFuncs]
    refine ⟨by simp, ?_, by simp [runCalls]⟩
    congr 1
    exact reports_exitStatus_congr _ _ _ rfl
  · rw [Init_cons _ _ _ _ _ ht, hd]
    have hf := runMatched_parse_fail lib (t :: rest) i app.Commands[i] body st msg hc hp
    refine ⟨?_, hf.2, hf.1⟩
    have hp' : app.Commands[i].Flag.Parse (List.drop 1 (t :: rest)) = .fail msg := hp
    cases msg with
    | none =>
      simp only [runMatched, hc, hp', Bool.false_eq_true, if_false]
      rw [Usage_trace, emit_trace]
      simp
    | some m =>
      simp only [runMatched, hc, hp', Bool.false_eq_true, if_false]
      rw [Usage_trace, write_stderr_trace, emit_trace]
      simp

/-- C1, as the code has it: when the first token `t` is not `help` and some
descriptor has `Name() = t` and is runnable, there is a first such descriptor in
registry order, at a position `i`, with `Run` equal to some `body`.  If it has
`CustomFlags` or its flag parser accepts the remaining tokens, `Init` invokes
that `Run` once and no other `Run`: the trace gains the call, the writes of
`body` on the arguments passed, and the calls and writes of the shutdown
callbacks, and the process ends with the recorded status.  If its flag parser
rejects the tokens, no `Run` is invoked: the trace gains only the call of the
parser and writes to the error stream, and the process ends with status 2. -/
theorem C1_Init_runs_first_runnable_match (app : App) (lib : GoLib) (t : String)
    (rest : List String) (st : State) (ht : t ≠ "help")
    (hex : ∃ c ∈ app.Commands, c.Name = t ∧ c.Runnable = true) :
    ∃ i, ∃ hi : i < app.Commands.length, ∃ body : List String → List Effect,
      (app.Commands[i].Name = t ∧ app.Commands[i].Run = some body) ∧
      (∀ j (hj : j < i),
        ¬ (app.Commands[j].Name = t ∧ app.Commands[j].Runnable = true)) ∧
      (app.Commands[i].CustomFlags = true →
        (Init app lib (t :: rest) st).1.trace =
          st.trace ++ (.run i rest :: writeEvents (body rest)) ++
            callbackEvents (st.atexitFuncs ++ registered (body rest)) ∧
        (Init app lib (t :: rest) st).2 =
          .exited (reports (reported (body rest) ++
            reportedBy (st.atexitFuncs ++ registered (body rest))) st).exitStatus ∧
        runCalls (Init app lib (t :: rest) st).1.trace =
          runCalls st.trace ++ [(i, rest)]) ∧
      (∀ left, app.Commands[i].CustomFlags = false →
        app.Commands[i].Flag.Parse rest = .ok left →
        (Init app lib (t :: rest) st).1.trace =
          st.trace ++ (.parse i rest :: .run i left :: writeEvents (body left)) ++
            callbackEvents (st.atexitFuncs ++ registered (body left)) ∧
        (Init app lib (t :: rest) st).2 =
          .exited (reports (reported (body left) ++
            reportedBy (st.atexitFuncs ++ registered (body left))) st).exitStatus ∧
        runCalls (Init app lib (t :: rest) st).1.trace =
          runCalls st.trace ++ [(i, left)]) ∧
      (∀ msg, app.Commands[i].CustomFlags = false →
        app.Commands[i].Flag.Parse rest = .fail msg →
        (Init app lib (t :: rest) st).1.trace =
          st.trace ++ (.parse i rest :: msg.toList.map Event.stderr) ++
            [.stderr (Sprintf lib "usage: %s\n\n" [app.Commands[i].UsageLine]),
              .stderr (Sprintf lib "%s\n" [TrimSpace app.Commands[i].Long])] ∧
        runCalls (Init app lib (t :: rest) st).1.trace = runCalls st.trace ∧
        (Init app lib (t :: rest) st).2 = .exited 2) := by
  obtain ⟨i, hi, hp, hfirst⟩ :=
    exists_first_index (fun c => c.Name = t ∧ c.Runnable = true) app.Commands hex
  obtain ⟨body, hbody⟩ : ∃ body, app.Commands[i].Run = some body := by
    cases h : app.Commands[i].Run with
    | none => simp [Command.Runnable, h] at hp
    | some b => exact ⟨b, rfl⟩
  have h := Init_first_match app lib t rest st i hi body ht hp.1 hbody hfirst
  exact ⟨i, hi, body, ⟨hp.1, hbody⟩, hfirst,
    fun hc => ⟨(h.1 hc).1, (h.1 hc).2.1, (h.1 hc).2.2.1⟩, h.2.1, h.2.2⟩

theorem C1_Init_runs_first_runnable_match_witness :
    (Init echoApp plainLib ["echo", "--", "-x", "y"] State.init).1.trace =
      [.parse 1 ["--", "-x", "y"], .run 1 ["-x", "y"], .stdout "-x", .stdout "y",
        .callback 5, .stdout "done\n"] ∧
    (Init echoApp plainLib ["echo", "--", "-x", "y"] State.init).2 = .exited 0 ∧
    runCalls (Init echoApp plainLib ["echo", "--", "-x", "y"] State.init).1.trace =
      [(1, ["-x", "y"])] := by
  obtain ⟨i, hi, body, hp, hfirst, -, hok, -⟩ :=
    C1_Init_runs_first_runnable_match echoApp plainLib "echo" ["--", "-x", "y"]
      State.init (by decide)
      ⟨cmdEcho, List.mem_cons_of_mem _ (List.mem_cons_self _ _), by decide, by decide⟩
  have hi3 : i < 3 := hi
  have h0 : i ≠ 0 := by
    intro e
    subst e
    have : (none : Option (List String → List Effect)) = some body := hp.2
    exact Option.noConfusion this
  have h2 : i ≠ 2 := by
    intro e
    subst e
    exact hfirst 1 (by decide)
      (show cmdEcho.Name = "echo" ∧ cmdEcho.Runnable = true by decide)
  have h1 : i = 1 := by omega
  subst h1
  have hb : runEcho = body := Option.some.inj hp.2
  subst hb
  exact hok ["-x", "y"] rfl rfl

/-- C1 as stated fails: in the example program the descriptor `hello` is
runnable, yet for the arguments `hello -x` no `Run` is invoked; its flag parser
rejects `-x` and `Command.Usage` ends the process with status 2. -/
theorem C1_counterexample_flag_rejected :
    (helloworld.Commands.map Command.Name = ["hello"] ∧
      helloworld.Commands.map Command.Runnable = [true]) ∧
    runCalls (Init helloworld plainLib ["hello", "-x"] State.init).1.trace = [] ∧
    (Init helloworld plainLib ["hello", "-x"] State.init).2 = .exited 2 ∧
    stderrWrites (Init helloworld plainLib ["hello", "-x"] State.init).1.trace =
      ["flag provided but not defined: -x\n", "usage: hello\n\n",
       "Hello greets the world with a friendly message.\n\nExample usage:\n\n  helloWorld hello\n"] := by
  decide

/-- C3: when the descriptor matched by `Init`, at position `i` and with `Run`
equal to `body`, has `CustomFlags`, `Init` calls `body` on the tokens after the
command name as they are, in order: the trace gains that call, the writes of
`body` on exactly those tokens and then the shutdown callbacks, the process ends
with the status recorded by then, and the descriptor's flag parser is not
called. -/
theorem C3_CustomFlags_passes_arguments_verbatim (app : App) (lib : GoLib) (t : String)
    (rest : List String) (st : State) (i : Nat) (hi : i < app.Commands.length)
    (body : List String → List Effect) (ht : t ≠ "help")
    (hname : app.Commands[i].Name = t) (hbody : app.Commands[i].Run = some body)
    (hfirst : ∀ j (hj : j < i),
      ¬ (app.Commands[j].Name = t ∧ app.Commands[j].Runnable = true))
    (hcustom : app.Commands[i].CustomFlags = true) :
    (Init app lib (t :: rest) st).1.trace =
      st.trace ++ (.run i rest :: writeEvents (body rest)) ++
        callbackEvents (st.atexitFuncs ++ registered (body rest)) ∧
    (Init app lib (t :: rest) st).2 =
      .exited (reports (reported (body rest) ++
        reportedBy (st.atexitFuncs ++ registered (body rest))) st).exitStatus ∧
    runCalls (Init app lib (t :: rest) st).1.trace = runCalls st.trace ++ [(i, rest)] ∧
    parseCalls (Init app lib (t :: rest) st).1.trace = parseCalls st.trace :=
  (Init_first_match app lib t rest st i hi body ht hname hbody hfirst).1 hcustom

theorem C3_CustomFlags_passes_arguments_verbatim_witness :
    (Init threeHellos plainLib ["hello", "-x", "--", "-h"] State.init).1.trace =
      [.run 1 ["-x", "--", "-h"], .stdout "-x", .stdout "--", .stdout "-h",
        .callback 7, .stderr "bye\n"] ∧
    (Init threeHellos plainLib ["hello", "-x", "--", "-h"] State.init).2 = .exited 1 ∧
    runCalls (Init threeHellos plainLib ["hello", "-x", "--", "-h"] State.init).1.trace =
      [(1, ["-x", "--", "-h"])] ∧
    parseCalls (Init threeHellos plainLib ["hello", "-x", "--", "-h"] State.init).1.trace =
      [] :=
  C3_CustomFlags_passes_arguments_verbatim threeHellos plainLib "hello" ["-x", "--", "-h"]
    State.init 1 (by decide) runHelloCustom (by decide) (by decide) rfl
    (by
      intro j hj
      have hj0 : j = 0 := by omega
      subst hj0
      show ¬ (docHello.Name = "hello" ∧ docHello.Runnable = true)
      decide) (by decide)

/-! ## Formatted messages -/

/-- Text without `%` is copied by `doPrintf`. -/
theorem doPrintf_literal (lib : GoLib) (a : List String) (pre rest : List Char) (n : Nat)
    (h : '%' ∉ pre) :
    doPrintf lib a none (pre ++ rest) n = pre ++ doPrintf lib a none rest n := by
  induction pre with
  | nil => rfl
  | cons c cs ih =>
    have hc : c ≠ '%' := fun e => h (by simp [e])
    have hm : '%' ∉ cs := fun e => h (List.mem_cons_of_mem _ e)
    rw [List.cons_append, doPrintf, if_neg hc, ih hm, List.cons_append]

theorem doPrintf_q (lib : GoLib) (t : String) (rest : List Char) :
    doPrintf lib [t] none ('%' :: 'q' :: rest) 0 =
      (lib.Quote t).data ++ doPrintf lib [t] none rest 1 := by
  simp [doPrintf, isFlagChar, Char.isDigit]

theorem doPrintf_s (lib : GoLib) (t : String) (rest : List Char) :
    doPrintf lib [t] none ('%' :: 's' :: rest) 0 =
      t.data ++ doPrintf lib [t] none rest 1 := by
  simp [doPrintf, isFlagChar, Char.isDigit]

theorem doPrintf_done (lib : GoLib) (t : String) :
    doPrintf lib [t] none [] 1 = [] := rfl

/-- A format that starts with a character other than `%` yields non-empty
text. -/
theorem Sprintf_ne_empty (lib : GoLib) (format : String) (a : List String) (c : Char)
    (rest : List Char) (hf : format.data = c :: rest) (hc : c ≠ '%') :
    Sprintf lib format a ≠ "" := by
  intro h
  have hd := congrArg String.data h
  simp only [Sprintf, hf, doPrintf, if_neg hc] at hd
  exact List.cons_ne_nil _ _ hd

/-- The shape of the format for an unknown subcommand, on character lists. -/
theorem doPrintf_name_q_name (lib : GoLib) (t : String) (nm l1 l2 l3 : List Char)
    (h : '%' ∉ nm) (h1 : '%' ∉ l1) (h2 : '%' ∉ l2) (h3 : '%' ∉ l3) :
    doPrintf lib [t] none (nm ++ (l1 ++ '%' :: 'q' :: (l2 ++ (nm ++ l3)))) 0 =
      nm ++ (l1 ++ ((lib.Quote t).data ++ (l2 ++ (nm ++ l3)))) := by
  have n4 : '%' ∉ l2 ++ (nm ++ l3) := by
    simp only [List.mem_append, not_or]
    exact ⟨h2, h, h3⟩
  rw [doPrintf_literal _ _ _ _ _ h, doPrintf_literal _ _ _ _ _ h1, doPrintf_q]
  have := doPrintf_literal lib [t] _ [] 1 n4
  rw [List.append_nil, doPrintf_done, List.append_nil] at this
  rw [this]

/-- The message for an unknown subcommand, for an application name without
`%`. -/
theorem unknown_subcommand_message (lib : GoLib) (name t : String)
    (h : '%' ∉ name.data) :
    Sprintf lib (name ++ ": unknown subcommand %q\nRun '" ++ name ++ " help` for usage.\n")
        [t] =
      name ++ ": unknown subcommand " ++ lib.Quote t ++ "\nRun '" ++ name ++
        " help` for usage.\n" := by
  apply String.ext
  have key := doPrintf_name_q_name lib t name.data ": unknown subcommand ".data
    "\nRun '".data " help` for usage.\n".data h (by decide) (by decide) (by decide)
  simpa [Sprintf, String.data_append, List.append_assoc] using key

/-- The behaviour of `Init` on an unknown subcommand: one write to the error
stream, and a normal return. -/
theorem Init_unknown_subcommand (app : App) (lib : GoLib) (t : String)
    (rest : List String) (st : State) (ht : t ≠ "help")
    (hnone : ∀ c ∈ app.Commands, ¬ (c.Name = t ∧ c.Runnable = true)) :
    Init app lib (t :: rest) st =
      (write .Stderr
        (Sprintf lib (app.ApplicationName ++ ": unknown subcommand %q\nRun '" ++
          app.ApplicationName ++ " help` for usage.\n") [t]) st, .returned) := by
  rw [Init_cons _ _ _ _ _ ht]
  exact dispatch_no_match app lib (t :: rest) app.Commands 0 st hnone

/-- For an unknown subcommand: no command body and no shutdown callback runs, the
error stream receives the formatted message, the recorded exit status is
untouched, and `Init` returns; for an application name without `%` the message
is the application name, the quoted token and the hint to run `help`. -/
theorem unknown_subcommand_reports_and_returns (app : App) (lib : GoLib) (t : String)
    (rest : List String) (st : State) (ht : t ≠ "help")
    (hnone : ∀ c ∈ app.Commands, ¬ (c.Name = t ∧ c.Runnable = true)) :
    runCalls (Init app lib (t :: rest) st).1.trace = runCalls st.trace ∧
    callbackCalls (Init app lib (t :: rest) st).1.trace = callbackCalls st.trace ∧
    stderrWrites (Init app lib (t :: rest) st).1.trace =
      stderrWrites st.trace ++
        [Sprintf lib (app.ApplicationName ++ ": unknown subcommand %q\nRun '" ++
          app.ApplicationName ++ " help` for usage.\n") [t]] ∧
    ('%' ∉ app.ApplicationName.data →
      Sprintf lib (app.ApplicationName ++ ": unknown subcommand %q\nRun '" ++
          app.ApplicationName ++ " help` for usage.\n") [t] =
        app.ApplicationName ++ ": unknown subcommand " ++ lib.Quote t ++ "\nRun '" ++
          app.ApplicationName ++ " help` for usage.\n") ∧
    stdoutWrites (Init app lib (t :: rest) st).1.trace = stdoutWrites st.trace ∧
    (Init app lib (t :: rest) st).1.exitStatus = st.exitStatus ∧
    (Init app lib (t :: rest) st).1.atexitFuncs = st.atexitFuncs ∧
    (Init app lib (t :: rest) st).2 = .returned := by
  rw [Init_unknown_subcommand app lib t rest st ht hnone]
  refine ⟨runCalls_write _ _ _, callbackCalls_write _ _ _, ?_,
    unknown_subcommand_message lib _ t, ?_, rfl, rfl, rfl⟩
  · simp [write_stderr_trace, stderrWrites]
  · simp [write_stderr_trace, stdoutWrites]

/-- C5, at an application name with a `%`: `Init` passes the application name to
`fmt.Fprintf` as part of the format, so for the name `100%` and the unknown
subcommand `foo` the text on the error stream is not the message of the claim,
`100%: unknown subcommand "foo"` and the hint to run `100% help`. -/
theorem C5_unknown_subcommand_message_with_percent (lib : GoLib) :
    stderrWrites (Init ⟨[cmdHello], "100%", "Counts."⟩ lib ["foo"] State.init).1.trace =
      ["100%!:(string=foo) unknown subcommand %!q(MISSING)\nRun '100%!h(MISSING)elp` for usage.\n"] ∧
    stderrWrites (Init ⟨[cmdHello], "100%", "Counts."⟩ lib ["foo"] State.init).1.trace ≠
      ["100%" ++ ": unknown subcommand " ++ lib.Quote "foo" ++ "\nRun '" ++ "100%" ++
        " help` for usage.\n"] ∧
    runCalls (Init ⟨[cmdHello], "100%", "Counts."⟩ lib ["foo"] State.init).1.trace = [] ∧
    (Init ⟨[cmdHello], "100%", "Counts."⟩ lib ["foo"] State.init).2 = .returned := by
  have h : stderrWrites
      (Init ⟨[cmdHello], "100%", "Counts."⟩ lib ["foo"] State.init).1.trace =
      ["100%!:(string=foo) unknown subcommand %!q(MISSING)\nRun '100%!h(MISSING)elp` for usage.\n"] :=
    rfl
  refine ⟨h, ?_, rfl, rfl⟩
  rw [h]
  intro e
  have e1 := congrArg String.data (List.head_eq_of_cons_eq e)
  simp [String.data_append] at e1

/-! ## Usage errors and `help` -/

theorem usageText_ne_empty (app : App) : usageText app ≠ "" := by
  intro h
  have hl := congrArg String.length h
  simp only [usageText, String.length_append] at hl
  have h1 : ("\n\nUsage:\n\n  " : String).length = 12 := by decide
  have h2 : ("" : String).length = 0 := rfl
  omega

theorem stderrWrites_write_stderr (s : String) (st : State) :
    stderrWrites (write .Stderr s st).trace = stderrWrites st.trace ++ [s] := by
  simp [write_stderr_trace, stderrWrites]

theorem stderrWrites_write_stdout (s : String) (st : State) :
    stderrWrites (write .Stdout s st).trace = stderrWrites st.trace := by
  simp [write_stdout_trace, stderrWrites]

theorem stdoutWrites_write_stdout (s : String) (st : State) :
    stdoutWrites (write .Stdout s st).trace = stdoutWrites st.trace ++ [s] := by
  simp [write_stdout_trace, stdoutWrites]

theorem stdoutWrites_write_stderr (s : String) (st : State) :
    stdoutWrites (write .Stderr s st).trace = stdoutWrites st.trace := by
  simp [write_stderr_trace, stdoutWrites]

theorem too_many_message_ne_empty (lib : GoLib) (name : String) :
    Sprintf lib ("usage: " ++ name ++ " help command\n\nToo many arguments given.\n") [] ≠
      "" := by
  apply Sprintf_ne_empty lib _ [] 'u'
    ("sage: ".data ++ name.data ++ " help command\n\nToo many arguments given.\n".data)
  · simp [String.data_append]
  · decide

theorem unknown_topic_message_ne_empty (lib : GoLib) (name t : String) :
    Sprintf lib ("Unknown help topic %#q. Run '" ++ name ++ " help'.\n") [t] ≠ "" := by
  apply Sprintf_ne_empty lib _ [t] 'U'
    ("nknown help topic %#q. Run '".data ++ name.data ++ " help'.\n".data)
  · simp [String.data_append]
  · decide

/-- The paths of `help`: an outcome other than status 2 is a return after one
write to the output stream; status 2 comes after one non-empty write to the
error stream. -/
theorem help_paths (app : App) (lib : GoLib) (rest : List String) (st : State) :
    ((help app lib rest st).2 = .returned ∧
        (∃ s, (help app lib rest st).1 = write .Stdout s st) ∧
        (rest = [] ∨ ∃ t, rest = [t] ∧ ∃ c ∈ app.Commands, c.Name = t)) ∨
    ((help app lib rest st).2 = .exited 2 ∧
        (∃ s, s ≠ "" ∧ (help app lib rest st).1 = write .Stderr s st) ∧
        (2 ≤ rest.length ∨ ∃ t, rest = [t] ∧ ∀ c ∈ app.Commands, c.Name ≠ t)) := by
  match rest with
  | [] =>
    left
    exact ⟨by simp [help], ⟨usageText app, by simp [help, printUsage]⟩, Or.inl rfl⟩
  | [t] =>
    rw [help_one, helpLoop_eq]
    cases hf : app.Commands.find? (fun c => decide (c.Name = t)) with
    | none =>
      right
      refine ⟨rfl, ⟨_, unknown_topic_message_ne_empty lib app.ApplicationName t, rfl⟩,
        Or.inr ⟨t, rfl, ?_⟩⟩
      intro c hc
      have := List.find?_eq_none.1 hf c hc
      simpa using this
    | some cmd =>
      left
      refine ⟨rfl, ⟨_, rfl⟩, Or.inr ⟨t, rfl, cmd, List.mem_of_find?_eq_some hf, ?_⟩⟩
      have := List.find?_some hf
      simpa using this
  | a :: b :: more =>
    right
    have hlen : 2 ≤ (a :: b :: more).length := by simp
    rw [help_too_many app lib _ st hlen]
    exact ⟨rfl, ⟨_, too_many_message_ne_empty lib app.ApplicationName, rfl⟩, Or.inl hlen⟩

/-- C4: for an argument list that is empty or starts with `help`, `Init` ends the
process with status 2 exactly when the list is empty, or `help` is followed by
two or more tokens, or by one token that is the name of no registered
descriptor; then non-empty text was written to the error stream and no command
body ran.  Otherwise `Init` returns, having written to the output stream only,
with the recorded exit status unchanged. -/
theorem C4_usage_errors_exit_2 (app : App) (lib : GoLib) (args : List String)
    (st : State) (h : args = [] ∨ args.head? = some "help") :
    ((Init app lib args st).2 = .exited 2 ↔
      (args = [] ∨ 3 ≤ args.length ∨
        ∃ t, args = ["help", t] ∧ ∀ c ∈ app.Commands, c.Name ≠ t)) ∧
    ((Init app lib args st).2 = .exited 2 →
      (∃ s, s ≠ "" ∧
        stderrWrites (Init app lib args st).1.trace = stderrWrites st.trace ++ [s]) ∧
      runCalls (Init app lib args st).1.trace = runCalls st.trace) ∧
    ((Init app lib args st).2 ≠ .exited 2 →
      (Init app lib args st).2 = .returned ∧
      stderrWrites (Init app lib args st).1.trace = stderrWrites st.trace ∧
      (∃ s, stdoutWrites (Init app lib args st).1.trace = stdoutWrites st.trace ++ [s]) ∧
      runCalls (Init app lib args st).1.trace = runCalls st.trace ∧
      callbackCalls (Init app lib args st).1.trace = callbackCalls st.trace ∧
      (Init app lib args st).1.exitStatus = st.exitStatus) := by
  match args, h with
  | [], _ =>
    rw [Init_nil]
    refine ⟨⟨fun _ => Or.inl rfl, fun _ => rfl⟩, fun _ => ?_, fun hne => absurd rfl hne⟩
    exact ⟨⟨usageText app, usageText_ne_empty app, stderrWrites_write_stderr _ _⟩,
      runCalls_write _ _ _⟩
  | a :: rest, h =>
    have ha : a = "help" := by
      rcases h with h | h
      · exact absurd h (List.cons_ne_nil _ _)
      · simpa using h
    subst ha
    rw [Init_help]
    rcases help_paths app lib rest st with ⟨ho, ⟨s, hs⟩, hc⟩ | ⟨ho, ⟨s, hne, hs⟩, hc⟩
    · have hno : (help app lib rest st).2 ≠ .exited 2 := by rw [ho]; decide
      refine ⟨⟨fun he => absurd he hno, fun hcase => ?_⟩, fun he => absurd he hno, fun _ => ?_⟩
      · exfalso
        rcases hcase with h1 | h1 | ⟨t, h1, h2⟩
        · exact List.cons_ne_nil _ _ h1
        · rcases hc with e | ⟨t, e, _⟩
          · subst e; simp at h1
          · subst e; simp at h1
        · have e : rest = [t] := by simpa using h1
          rcases hc with e' | ⟨t', e', c, hcm, hcn⟩
          · rw [e'] at e; exact List.cons_ne_nil _ _ e.symm
          · rw [e'] at e
            have : t' = t := by simpa using e
            exact h2 c hcm (hcn.trans this)
      · rw [hs]
        exact ⟨ho, stderrWrites_write_stdout _ _, ⟨s, stdoutWrites_write_stdout _ _⟩,
          runCalls_write _ _ _, callbackCalls_write _ _ _, write_exitStatus _ _ _⟩
    · refine ⟨⟨fun _ => ?_, fun _ => ho⟩, fun _ => ?_, fun hne' => absurd ho hne'⟩
      · rcases hc with h2 | ⟨t, e, hn⟩
        · right; left; simpa using Nat.succ_le_succ h2
        · right; right; exact ⟨t, by rw [e], hn⟩
      · rw [hs]
        exact ⟨⟨s, hne, stderrWrites_write_stderr _ _⟩, runCalls_write _ _ _⟩

theorem C4_usage_errors_exit_2_witness :
    (Init helloworld plainLib ["help", "bye"] State.init).2 = .exited 2 ∧
    (∃ s, s ≠ "" ∧
      stderrWrites (Init helloworld plainLib ["help", "bye"] State.init).1.trace =
        stderrWrites State.init.trace ++ [s]) :=
  have h := C4_usage_errors_exit_2 helloworld plainLib ["help", "bye"] State.init
    (Or.inr (by decide))
  have h2 := h.1.2 (Or.inr (Or.inr ⟨"bye", rfl, by decide⟩))
  ⟨h2, (h.2.1 h2).1⟩

/-! ## Help on a topic -/

theorem find?_first (p : Command → Bool) (cmds : List Command) (i : Nat)
    (hi : i < cmds.length) (hp : p cmds[i] = true)
    (hfirst : ∀ j (hj : j < i), p cmds[j] = false) :
    cmds.find? p = some cmds[i] := by
  induction cmds generalizing i with
  | nil => simp at hi
  | cons c cs ih =>
    cases i with
    | zero =>
      simp only [List.getElem_cons_zero] at hp
      simp [List.find?_cons, hp]
    | succ i =>
      have h0 := hfirst 0 (Nat.succ_pos i)
      simp only [List.getElem_cons_zero] at h0
      simp only [List.getElem_cons_succ] at hp ⊢
      rw [List.find?_cons, h0]
      apply ih i (by simpa using hi) hp
      intro j hj
      have := hfirst (j + 1) (Nat.succ_lt_succ hj)
      simpa only [List.getElem_cons_succ] using this

/-- What `strings.TrimSpace` returns: the string without the white space at its
two ends. -/
theorem TrimSpace_spec (s : String) :
    ∃ l r : List Char,
      s.data = l ++ (TrimSpace s).data ++ r ∧
      (∀ c ∈ l, isSpace c = true) ∧ (∀ c ∈ r, isSpace c = true) ∧
      (∀ c, (TrimSpace s).data.head? = some c → isSpace c = false) ∧
      (∀ c, (TrimSpace s).data.getLast? = some c → isSpace c = false) := by
  let mid := s.data.dropWhile isSpace
  let rev := mid.reverse
  have hmid : s.data = s.data.takeWhile isSpace ++ mid :=
    (List.takeWhile_append_dropWhile isSpace s.data).symm
  have hrev : rev = rev.takeWhile isSpace ++ rev.dropWhile isSpace :=
    (List.takeWhile_append_dropWhile isSpace rev).symm
  have htrim : (TrimSpace s).data = (rev.dropWhile isSpace).reverse := rfl
  have hsplit : mid = (rev.dropWhile isSpace).reverse ++ (rev.takeWhile isSpace).reverse := by
    have := congrArg List.reverse hrev
    rw [List.reverse_append] at this
    rw [← this]
    exact (List.reverse_reverse mid).symm
  have hlast : ∀ c, (TrimSpace s).data.getLast? = some c → isSpace c = false := by
    intro c hc
    rw [htrim, List.getLast?_reverse] at hc
    have := List.head?_dropWhile_not isSpace rev
    rw [hc] at this
    simpa using this
  refine ⟨s.data.takeWhile isSpace, (rev.takeWhile isSpace).reverse, ?_, ?_, ?_, ?_, hlast⟩
  · rw [htrim, List.append_assoc, ← hsplit]
    exact hmid
  · intro c hc
    exact List.mem_takeWhile_imp hc
  · intro c hc
    exact List.mem_takeWhile_imp (List.mem_reverse.1 hc)
  · intro c hc
    rw [htrim] at hc
    have hne : (rev.dropWhile isSpace).reverse ≠ [] := by
      intro e
      rw [e] at hc
      simp at hc
    have hh : mid.head? = some c := by
      rw [hsplit, List.head?_append_of_ne_nil _ hne]
      exact hc
    have := List.head?_dropWhile_not isSpace s.data
    rw [hh] at this
    simpa using this

/-- What `help` does with one argument `t` when the descriptor at position `i` is
the first with the name `t`. -/
theorem help_topic_first_named (app : App) (lib : GoLib) (t : String)
    (st : State) (i : Nat) (hi : i < app.Commands.length)
    (hname : app.Commands[i].Name = t)
    (hfirst : ∀ j (hj : j < i), app.Commands[j].Name ≠ t) :
    help app lib [t] st = (write .Stdout (helpText app app.Commands[i]) st, .returned) ∧
    stdoutWrites (help app lib [t] st).1.trace =
      stdoutWrites st.trace ++ [helpText app app.Commands[i]] ∧
    stderrWrites (help app lib [t] st).1.trace = stderrWrites st.trace ∧
    (help app lib [t] st).1.exitStatus = st.exitStatus ∧
    (app.Commands[i].Runnable = true →
      helpText app app.Commands[i] =
        "usage: " ++ app.ApplicationName ++ " " ++ app.Commands[i].UsageLine ++ "\n" ++
          "\n" ++ TrimSpace app.Commands[i].Long ++ "\n\n") ∧
    (app.Commands[i].Runnable = false →
      helpText app app.Commands[i] = TrimSpace app.Commands[i].Long ++ "\n\n") ∧
    (∃ l r : List Char,
      app.Commands[i].Long.data = l ++ (TrimSpace app.Commands[i].Long).data ++ r ∧
      (∀ c ∈ l, isSpace c = true) ∧ (∀ c ∈ r, isSpace c = true) ∧
      (∀ c, (TrimSpace app.Commands[i].Long).data.head? = some c → isSpace c = false) ∧
      (∀ c, (TrimSpace app.Commands[i].Long).data.getLast? = some c →
        isSpace c = false)) := by
  have hfind : app.Commands.find? (fun c => decide (c.Name = t)) = some app.Commands[i] := by
    apply find?_first _ _ i hi
    · simpa using hname
    · intro j hj
      simpa using hfirst j hj
  have hres : help app lib [t] st =
      (write .Stdout (helpText app app.Commands[i]) st, .returned) := by
    rw [help_one, helpLoop_eq, hfind]
  refine ⟨hres, ?_, ?_, ?_, ?_, ?_, TrimSpace_spec _⟩
  · rw [hres]; exact stdoutWrites_write_stdout _ _
  · rw [hres]; exact stderrWrites_write_stdout _ _
  · rw [hres]; rfl
  · intro hr
    apply String.ext
    simp [helpText, hr, String.data_append, List.append_assoc]
  · intro hr
    simp [helpText, hr]

/-- C9: `help` with one argument `t` that names a registered descriptor takes the
first descriptor in registry order with `Name() = t`, runnable or not, and
writes to the output stream, for a runnable descriptor, the line of `usage: `,
the application name and the usage line, and a blank line, and in either case
the trimmed `Long`; it returns with the exit status unchanged. -/
theorem C9_help_topic_renders_first_named (app : App) (lib : GoLib) (t : String)
    (st : State) (hex : ∃ c ∈ app.Commands, c.Name = t) :
    ∃ i, ∃ hi : i < app.Commands.length,
      app.Commands[i].Name = t ∧
      (∀ j (hj : j < i), app.Commands[j].Name ≠ t) ∧
      help app lib [t] st = (write .Stdout (helpText app app.Commands[i]) st, .returned) ∧
      stdoutWrites (help app lib [t] st).1.trace =
        stdoutWrites st.trace ++ [helpText app app.Commands[i]] ∧
      stderrWrites (help app lib [t] st).1.trace = stderrWrites st.trace ∧
      (help app lib [t] st).1.exitStatus = st.exitStatus ∧
      (app.Commands[i].Runnable = true →
        helpText app app.Commands[i] =
          "usage: " ++ app.ApplicationName ++ " " ++ app.Commands[i].UsageLine ++ "\n" ++
            "\n" ++ TrimSpace app.Commands[i].Long ++ "\n\n") ∧
      (app.Commands[i].Runnable = false →
        helpText app app.Commands[i] = TrimSpace app.Commands[i].Long ++ "\n\n") ∧
      (∃ l r : List Char,
        app.Commands[i].Long.data = l ++ (TrimSpace app.Commands[i].Long).data ++ r ∧
        (∀ c ∈ l, isSpace c = true) ∧ (∀ c ∈ r, isSpace c = true) ∧
        (∀ c, (TrimSpace app.Commands[i].Long).data.head? = some c → isSpace c = false) ∧
        (∀ c, (TrimSpace app.Commands[i].Long).data.getLast? = some c →
          isSpace c = false)) := by
  obtain ⟨i, hi, hp, hfirst⟩ := exists_first_index (fun c => c.Name = t) app.Commands hex
  exact ⟨i, hi, hp, hfirst, help_topic_first_named app lib t st i hi hp hfirst⟩

theorem C9_help_topic_renders_first_named_witness :
    stdoutWrites (help threeHellos plainLib ["hello"] State.init).1.trace =
      ["Greetings are friendly.\n\n"] ∧
    (help threeHellos plainLib ["hello"] State.init).2 = .returned := by
  obtain ⟨i, hi, hn, hfirst, h, -⟩ :=
    C9_help_topic_renders_first_named threeHellos plainLib "hello" State.init
      ⟨docHello, List.mem_cons_self _ _, by decide⟩
  rw [h]
  have hi0 : i = 0 := by
    by_contra hne
    exact hfirst 0 (Nat.pos_of_ne_zero hne) (show docHello.Name = "hello" by decide)
  subst hi0
  exact ⟨rfl, rfl⟩

/-! ## The usage text -/

/-- The rounds of `{{range .Data}}` write one line for each runnable descriptor,
in registry order, and nothing for the others. -/
theorem concatText_usageCommandLine (cmds : List Command) :
    concatText (cmds.map usageCommandLine) =
      concatText ((cmds.filter Command.Runnable).map fun c =>
        "\n  " ++ printfMinus11s c.Name ++ " " ++ c.Short) := by
  induction cmds with
  | nil => rfl
  | cons c cs ih =>
    by_cases hr : c.Runnable = true
    · rw [List.map_cons, List.filter_cons, if_pos hr, List.map_cons]
      simp only [concatText]
      rw [ih]
      simp only [usageCommandLine, hr, if_true]
    · rw [List.map_cons, List.filter_cons, if_neg hr]
      simp only [concatText]
      rw [ih]
      simp only [usageCommandLine, hr, if_false]
      exact String.ext (by simp [String.data_append])

theorem printfMinus11s_data (s : String) :
    (printfMinus11s s).data = s.data ++ List.replicate (11 - s.length) ' ' := by
  simp [printfMinus11s, String.data_append]

theorem printfMinus11s_length (s : String) :
    (printfMinus11s s).length = max 11 s.length := by
  simp only [printfMinus11s, String.length_append]
  have : (String.mk (List.replicate (11 - s.length) ' ')).length = 11 - s.length := by
    show (List.replicate (11 - s.length) ' ').length = 11 - s.length
    exact List.length_replicate _ _
  rw [this]
  omega

/-- C8, as the code has it: after `The commands are:` the usage text has one line
for each runnable descriptor and none for the others, in registry order, made of
two spaces, the name field, one space and `Short`; the name field is `Name()`
followed by spaces up to a width of 11 characters, so it is 11 characters wide
for a name of at most 11 characters, and is the whole name, not truncated, for a
longer one.  For the one runnable command `hello` with short text `say hi` the
listing is the single line with `hello` and six spaces in the name field. -/
theorem C8_usage_lists_runnable_commands (app : App) (c : Command) :
    usageText app =
      app.ApplicationDescription ++ "\n\nUsage:\n\n  " ++ app.ApplicationName ++
        " command [arguments]\n\nThe commands are:\n" ++
        concatText ((app.Commands.filter Command.Runnable).map fun c =>
          "\n  " ++ printfMinus11s c.Name ++ " " ++ c.Short) ++
        "\n\nUse \"" ++ app.ApplicationName ++
        " help [command]\" for more information about a command.\n\n" ∧
    (printfMinus11s c.Name).data =
      c.Name.data ++ List.replicate (11 - c.Name.length) ' ' ∧
    (printfMinus11s c.Name).length = max 11 c.Name.length ∧
    (c.Name.length ≤ 11 → (printfMinus11s c.Name).length = 11) ∧
    (11 ≤ c.Name.length → printfMinus11s c.Name = c.Name) ∧
    concatText (([cmdHi].filter Command.Runnable).map fun c =>
        "\n  " ++ printfMinus11s c.Name ++ " " ++ c.Short) = "\n  hello       say hi" := by
  refine ⟨?_, printfMinus11s_data _, printfMinus11s_length _, fun h => ?_, fun h => ?_,
    by decide⟩
  · simp only [usageText, concatText_usageCommandLine]
  · rw [printfMinus11s_length]; omega
  · apply String.ext
    rw [printfMinus11s_data]
    have : 11 - c.Name.length = 0 := by omega
    simp [this]

theorem C8_usage_lists_runnable_commands_witness :
    usageText ⟨[docHello, cmdHi], "greeter", "Greets."⟩ =
      "Greets.\n\nUsage:\n\n  greeter command [arguments]\n\nThe commands are:\n\n  hello       say hi\n\nUse \"greeter help [command]\" for more information about a command.\n\n" ∧
    (printfMinus11s cmdHi.Name).length = 11 :=
  ⟨by decide,
   (C8_usage_lists_runnable_commands ⟨[docHello, cmdHi], "greeter", "Greets."⟩ cmdHi).2.2.2.1
    (by decide)⟩

/-- C8 as stated fails: the name field is not cut to 11 characters.  For a
runnable command named `averylongcommand` the listing line holds the whole name,
a field of 16 characters. -/
theorem C8_counterexample_long_name_not_truncated :
    usageText ⟨[cmdLongName], "app", "An app."⟩ =
      "An app.\n\nUsage:\n\n  app command [arguments]\n\nThe commands are:\n\n  averylongcommand does things\n\nUse \"app help [command]\" for more information about a command.\n\n" ∧
    printfMinus11s cmdLongName.Name = "averylongcommand" ∧
    (printfMinus11s cmdLongName.Name).length = 16 ∧
    (printfMinus11s cmdLongName.Name).length ≠ 11 := by
  decide

/-! ## `capitalize` -/

theorem first_ascii (b : Nat) (h : b < 0x80) : first b = 0xF0 := by
  unfold first
  rw [if_pos h]

theorem first_two (b : Nat) (h1 : 0xC2 ≤ b) (h2 : b < 0xE0) : first b = 0x02 := by
  unfold first
  rw [if_neg (by omega), if_neg (by omega), if_pos h2]

theorem first_three (b : Nat) (h1 : 0xE1 ≤ b) (h2 : b < 0xF0) (h3 : b ≠ 0xED) :
    first b = 0x03 := by
  unfold first
  by_cases h : b < 0xED
  · rw [if_neg (by omega), if_neg (by omega), if_neg (by omega), if_neg (by omega), if_pos h]
  · rw [if_neg (by omega), if_neg (by omega), if_neg (by omega), if_neg (by omega), if_neg h,
      if_neg h3, if_pos h2]

theorem first_E0 : first 0xE0 = 0x13 := by decide

theorem first_ED : first 0xED = 0x23 := by decide

theorem first_F0 : first 0xF0 = 0x34 := by decide

theorem first_F4 : first 0xF4 = 0x44 := by decide

theorem first_four (b : Nat) (h1 : 0xF1 ≤ b) (h2 : b < 0xF4) : first b = 0x04 := by
  unfold first
  rw [if_neg (by omega), if_neg (by omega), if_neg (by omega), if_neg (by omega),
    if_neg (by omega), if_neg (by omega), if_neg (by omega), if_neg (by omega), if_pos h2]

theorem DecodeRuneInString_encodeRune (r : Nat) (t : List Nat) (h : validRune r) :
    DecodeRuneInString (encodeRune r ++ t) = (r, (encodeRune r).length) := by
  obtain ⟨h1, h2⟩ := h
  by_cases c1 : r < 0x80
  · have e : encodeRune r = [r] := by
      unfold encodeRune
      rw [if_pos c1]
    rw [e]
    simp only [DecodeRuneInString, List.singleton_append, List.length_cons, List.getD_cons_zero,
      first_ascii r c1]
    simp
  · by_cases c2 : r ≤ 0x7FF
    · have e : encodeRune r = [0xC0 + r / 64, 0x80 + r % 64] := by
        unfold encodeRune
        rw [if_neg c1, if_pos c2]
      have f : first (0xC0 + r / 64) = 0x02 := first_two _ (by omega) (by omega)
      rw [e]
      simp only [DecodeRuneInString, List.cons_append, List.length_cons, List.getD_cons_zero,
        List.getD_cons_succ, f, acceptRanges]
      rw [if_neg (by omega), if_neg (by omega), if_neg (by omega), if_neg (by omega),
        if_pos (by omega)]
      simp only [Prod.mk.injEq, List.length_nil, and_true]
      omega
    · have c3 : ¬ (r > 0x10FFFF ∨ (0xD800 ≤ r ∧ r ≤ 0xDFFF)) := by omega
      by_cases c4 : r ≤ 0xFFFF
      · have e : encodeRune r = [0xE0 + r / 4096, 0x80 + r / 64 % 64, 0x80 + r % 64] := by
          unfold encodeRune
          rw [if_neg c1, if_neg c2, if_neg c3, if_pos c4]
        rw [e]
        by_cases d0 : r / 4096 = 0
        · have f : first (0xE0 + r / 4096) = 0x13 := by rw [d0]; exact first_E0
          simp only [DecodeRuneInString, List.cons_append, List.length_cons,
            List.getD_cons_zero, List.getD_cons_succ, f, acceptRanges]
          rw [if_neg (by omega), if_neg (by omega), if_neg (by omega), if_neg (by omega),
            if_neg (by omega), if_neg (by omega), if_pos (by omega)]
          simp only [Prod.mk.injEq, List.length_nil, and_true]
          omega
        · by_cases d13 : r / 4096 = 13
          · have f : first (0xE0 + r / 4096) = 0x23 := by rw [d13]; exact first_ED
            simp only [DecodeRuneInString, List.cons_append, List.length_cons,
              List.getD_cons_zero, List.getD_cons_succ, f, acceptRanges]
            rw [if_neg (by omega), if_neg (by omega), if_neg (by omega), if_neg (by omega),
              if_neg (by omega), if_neg (by omega), if_pos (by omega)]
            simp only [Prod.mk.injEq, List.length_nil, and_true]
            omega
          · have f : first (0xE0 + r / 4096) = 0x03 :=
              first_three _ (by omega) (by omega) (by omega)
            simp only [DecodeRuneInString, List.cons_append, List.length_cons,
              List.getD_cons_zero, List.getD_cons_succ, f, acceptRanges]
            rw [if_neg (by omega), if_neg (by omega), if_neg (by omega), if_neg (by omega),
              if_neg (by omega), if_neg (by omega), if_pos (by omega)]
            simp only [Prod.mk.injEq, List.length_nil, and_true]
            omega
      · have e : encodeRune r =
            [0xF0 + r / 262144, 0x80 + r / 4096 % 64, 0x80 + r / 64 % 64, 0x80 + r % 64] := by
          unfold encodeRune
          rw [if_neg c1, if_neg c2, if_neg c3, if_neg c4]
        rw [e]
        by_cases d0 : r / 262144 = 0
        · have f : first (0xF0 + r / 262144) = 0x34 := by rw [d0]; exact first_F0
          simp only [DecodeRuneInString, List.cons_append, List.length_cons,
            List.getD_cons_zero, List.getD_cons_succ, f, acceptRanges]
          rw [if_neg (by omega), if_neg (by omega), if_neg (by omega), if_neg (by omega),
            if_neg (by omega), if_neg (by omega), if_neg (by omega), if_neg (by omega)]
          simp only [Prod.mk.injEq, List.length_nil, and_true]
          omega
        · by_cases d4 : r / 262144 = 4
          · have f : first (0xF0 + r / 262144) = 0x44 := by rw [d4]; exact first_F4
            simp only [DecodeRuneInString, List.cons_append, List.length_cons,
              List.getD_cons_zero, List.getD_cons_succ, f, acceptRanges]
            rw [if_neg (by omega), if_neg (by omega), if_neg (by omega), if_neg (by omega),
              if_neg (by omega), if_neg (by omega), if_neg (by omega), if_neg (by omega)]
            simp only [Prod.mk.injEq, List.length_nil, and_true]
            omega
          · have f : first (0xF0 + r / 262144) = 0x04 := first_four _ (by omega) (by omega)
            simp only [DecodeRuneInString, List.cons_append, List.length_cons,
              List.getD_cons_zero, List.getD_cons_succ, f, acceptRanges]
            rw [if_neg (by omega), if_neg (by omega), if_neg (by omega), if_neg (by omega),
              if_neg (by omega), if_neg (by omega), if_neg (by omega), if_neg (by omega)]
            simp only [Prod.mk.injEq, List.length_nil, and_true]
            omega

theorem encodeRune_length (r : Nat) :
    1 ≤ (encodeRune r).length ∧ (encodeRune r).length ≤ 4 := by
  unfold encodeRune
  split_ifs <;> simp

/-- C10: `capitalize("")` is `""`, `capitalize("abc")` is `"Abc"`, and for a
string that starts with the encoding of a code point `r`, of one to four bytes,
followed by the bytes `t`, `capitalize` returns the encoding of the title case
of `r` followed by `t` unchanged. -/
theorem C10_capitalize_first_rune (caseTable : Nat → Nat) (r : Nat) (t : List Nat)
    (h : validRune r) :
    capitalize caseTable [] = [] ∧
    capitalize caseTable (bytesOf "abc".data) = bytesOf "Abc".data ∧
    (1 ≤ (encodeRune r).length ∧ (encodeRune r).length ≤ 4) ∧
    DecodeRuneInString (encodeRune r ++ t) = (r, (encodeRune r).length) ∧
    capitalize caseTable (encodeRune r ++ t) = encodeRune (ToTitle caseTable r) ++ t := by
  have hgen : ∀ r' t', validRune r' →
      capitalize caseTable (encodeRune r' ++ t') =
        encodeRune (ToTitle caseTable r') ++ t' := by
    intro r' t' hv
    have hne : encodeRune r' ++ t' ≠ [] := by
      intro e
      have := congrArg List.length e
      have hl := (encodeRune_length r').1
      simp only [List.length_append, List.length_nil] at this
      omega
    unfold capitalize
    rw [if_neg hne, DecodeRuneInString_encodeRune r' t' hv]
    simp
  refine ⟨rfl, ?_, encodeRune_length r, DecodeRuneInString_encodeRune r t h, hgen r t h⟩
  have := hgen 0x61 [0x62, 0x63] (by unfold validRune; omega)
  exact this

theorem C10_capitalize_first_rune_witness :
    capitalize latin1Title (bytesOf "élan".data) = bytesOf "Élan".data ∧
    capitalize latin1Title ([0xC3, 0xA9] ++ [0x6C, 0x61, 0x6E]) =
      [0xC3, 0x89] ++ [0x6C, 0x61, 0x6E] :=
  ⟨(C10_capitalize_first_rune latin1Title 0xE9 [0x6C, 0x61, 0x6E]
      (by unfold validRune; omega)).2.2.2.2,
   (C10_capitalize_first_rune latin1Title 0xE9 [0x6C, 0x61, 0x6E]
      (by unfold validRune; omega)).2.2.2.2⟩

end Sergeant
